import Mathlib

/-!
# CS-3113 HW3: the `Entity` intent setters and the fixed-timestep game loop

A shallow embedding of `Entity.h` and of `process_input`, `update`, `render`
and the `main` loop of `main.cpp`.

* The global variables of `main.cpp` are gathered in the record `World`, which
  every function takes and returns.
* `Entity::update` and `Entity::check_collision` are declared in `Entity.h`
  but their bodies (`Entity.cpp`) are not among the sources; the functions of
  `main.cpp` that call them take them as the parameter `EntityImpl`.
* `glm::normalize` (an external library) is a parameter as well.
* The calls of `player->update` and the executions of the two end-condition
  branches are recorded in an event log returned next to the new `World`; the
  log is observation only and is never read by the embedded code.
* C++ `float` has two readings.  What is proved of the intent setters, of
  `process_input` and of the order and effect of the two end tests does not
  depend on rounding and is stated with exact rationals (`update`, with
  `FIXED_TIMESTEP = 1/60`, `-0.3f = -3/10`, `-2.1f = -21/10`).  What is proved
  of the time bookkeeping of `update` (the step count, the accumulator,
  termination) is stated in binary32 (`update32`): every `float` operation is
  the exact operation followed by rounding to nearest, ties to even, at 24
  significant bits (`F32.rnd`).
-/

namespace HW3

/-! ## Data model (`Entity.h`) -/

/-- The type `glm::vec3`, over exact rationals. -/
structure Vec3 where
  x : ℚ
  y : ℚ
  z : ℚ
deriving DecidableEq

/-- The value `glm::vec3(0.0f)`. -/
def Vec3.zero : Vec3 := ⟨0, 0, 0⟩

/-- The square of `glm::length v`. -/
def Vec3.lengthSq (v : Vec3) : ℚ := v.x * v.x + v.y * v.y + v.z * v.z

/-- The test `glm::length(v) > 1.0f`, decided on the square of the length
(see `length_gt_one_iff` for the agreement with the real square root). -/
def Vec3.lengthGtOne (v : Vec3) : Bool := decide (1 < v.lengthSq)

/-- Source: `enum AnimationDirection { LEFT, RIGHT, UP, DOWN }`. -/
inductive AnimationDirection where
  | LEFT
  | RIGHT
  | UP
  | DOWN
deriving DecidableEq

/-- The integer value of an enumerator, used as a row index of `m_walking`. -/
def AnimationDirection.row : AnimationDirection → Fin 4
  | .LEFT => 0
  | .RIGHT => 1
  | .UP => 2
  | .DOWN => 3

/-- The private fields of `class Entity`.  `m_animation_indices` is an `int*`
that is either `nullptr` (`none`) or points at a row of the entity's own
`m_walking` table (`some r`); it is stored as the row number, so reading
through it always sees the current contents of `m_walking`. -/
structure Entity where
  m_walking : Fin 4 → Fin 4 → Int
  m_movement : Vec3
  m_position : Vec3
  m_scale : Vec3
  m_velocity : Vec3
  m_acceleration : Vec3
  m_model_matrix : Fin 4 → Fin 4 → ℚ
  m_speed : ℚ
  m_drag : ℚ
  m_texture_id : Nat
  m_animation_cols : Int
  m_animation_frames : Int
  m_animation_index : Int
  m_animation_rows : Int
  m_animation_indices : Option (Fin 4)
  m_animation_time : ℚ
  m_width : Int
  m_height : Int
  m_up_power : ℚ
  m_is_up : Bool
  m_is_press : Bool

namespace Entity

/-- What `m_animation_indices` points at: the four frame numbers of the active
row, or nothing for `nullptr`. -/
def activeSequence (e : Entity) : Option (Fin 4 → Int) :=
  e.m_animation_indices.map (fun r => e.m_walking r)

/-- Source: `void face_left()  { m_animation_indices = m_walking[LEFT];  }` -/
def face_left (e : Entity) : Entity :=
  { e with m_animation_indices := some AnimationDirection.LEFT.row }

/-- Source: `void face_right() { m_animation_indices = m_walking[RIGHT]; }` -/
def face_right (e : Entity) : Entity :=
  { e with m_animation_indices := some AnimationDirection.RIGHT.row }

/-- Source: `void face_up()    { m_animation_indices = m_walking[UP];    }` -/
def face_up (e : Entity) : Entity :=
  { e with m_animation_indices := some AnimationDirection.UP.row }

/-- Source: `void face_down()  { m_animation_indices = m_walking[DOWN];  }` -/
def face_down (e : Entity) : Entity :=
  { e with m_animation_indices := some AnimationDirection.DOWN.row }

/-- The `face_*` method of a direction. -/
def face (d : AnimationDirection) (e : Entity) : Entity :=
  match d with
  | .LEFT => e.face_left
  | .RIGHT => e.face_right
  | .UP => e.face_up
  | .DOWN => e.face_down

/-- Source: `void move_left() { m_acceleration.x = -0.3f; face_left(); m_is_press = true; }` -/
def move_left (e : Entity) : Entity :=
  let e1 := { e with m_acceleration := { e.m_acceleration with x := -3 / 10 } }
  let e2 := e1.face_left
  { e2 with m_is_press := true }

/-- Source: `void move_right() { m_acceleration.x = 0.3f;  face_right(); m_is_press = true; }` -/
def move_right (e : Entity) : Entity :=
  let e1 := { e with m_acceleration := { e.m_acceleration with x := 3 / 10 } }
  let e2 := e1.face_right
  { e2 with m_is_press := true }

/-- Source: `void move_up()    { m_movement.y = 1.0f;  face_up(); m_is_up = true; }` -/
def move_up (e : Entity) : Entity :=
  let e1 := { e with m_movement := { e.m_movement with y := 1 } }
  let e2 := e1.face_up
  { e2 with m_is_up := true }

/-- Source: `void move_down()  { m_movement.y = -1.0f; face_down(); }` -/
def move_down (e : Entity) : Entity :=
  let e1 := { e with m_movement := { e.m_movement with y := -1 } }
  e1.face_down

/-- Source: `void normalise_movement() { m_movement = glm::normalize(m_movement); }`,
with `glm::normalize` passed in. -/
def normalise_movement (normalize : Vec3 → Vec3) (e : Entity) : Entity :=
  { e with m_movement := normalize e.m_movement }

/-- Source: `glm::vec3 const get_position() const { return m_position; }` -/
def get_position (e : Entity) : Vec3 := e.m_position

/-- Source: `glm::vec3 const get_movement() const { return m_movement; }` -/
def get_movement (e : Entity) : Vec3 := e.m_movement

/-- Source: `glm::vec3 const get_velocity() const { return m_velocity; }` -/
def get_velocity (e : Entity) : Vec3 := e.m_velocity

/-- Source: `void const set_movement(glm::vec3 new_movement) { m_movement = new_movement; }` -/
def set_movement (new_movement : Vec3) (e : Entity) : Entity :=
  { e with m_movement := new_movement }

/-- Source: `void const set_velocity(glm::vec3 new_velocity) { m_velocity = new_velocity; }` -/
def set_velocity (new_velocity : Vec3) (e : Entity) : Entity :=
  { e with m_velocity := new_velocity }

/-- Source: `void set_walking(int walking[4][4])`: the two nested loops copy every cell
`walking[i][j]` into `m_walking[i][j]`, for `i, j` in `0..3`. -/
def set_walking (walking : Fin 4 → Fin 4 → Int) (e : Entity) : Entity :=
  { e with m_walking := fun i j => walking i j }

end Entity

/-! ## Globals and constants (`main.cpp`) -/

/-- Source: `constexpr float FIXED_TIMESTEP = 1.0f / 60.0f;`, in the exact reading
(the binary32 constant is `FIXED_TIMESTEP32`). -/
def FIXED_TIMESTEP : ℚ := 1 / 60

/-- Source: `constexpr int PLATFORM_COUNT = 1;` -/
def PLATFORM_COUNT : Int := 1

/-- The threshold `-2.1f` of the lose test in `update`. -/
def LOSE_Y : ℚ := -21 / 10

/-- Source: `enum AppStatus { RUNNING, TERMINATED };` -/
inductive AppStatus where
  | RUNNING
  | TERMINATED
deriving DecidableEq

/-- Source: `struct GameState`: the entities behind the pointers that `initialise`
sets (`background` is never assigned nor used and is left out). -/
structure GameState where
  player : Entity
  bigfish : Entity
  hook : Entity
  win : Entity
  loose : Entity

/-- The global variables of `main.cpp` that the game loop reads and writes. -/
structure World where
  g_game_state : GameState
  g_app_status : AppStatus
  g_previous_ticks : ℚ
  g_time_accumulator : ℚ
  game_end : Bool
  win_loose : Int

/-- The bodies that `Entity.h` declares and `Entity.cpp`, absent from the
sources, defines.  `update self delta_time other count` returns the new
`self` and the new `other` (the callee receives a non-const pointer to it);
`check_collision self other` is a `const` query. -/
structure EntityImpl where
  update : Entity → ℚ → Entity → Int → Entity × Entity
  check_collision : Entity → Entity → Bool

/-! ## `process_input` -/

/-- An `SDL_Event`, as far as the `switch` of `process_input` tells events
apart; `SDL_KEYDOWN` carries `event.key.keysym.sym`. -/
inductive SDLEvent where
  | SDL_QUIT
  | SDL_WINDOWEVENT_CLOSE
  | SDL_KEYDOWN (sym : Nat)
  | other
deriving DecidableEq

/-- The key code `SDLK_q` (the character `q`). -/
def SDLK_q : Nat := 113

/-- The array `key_state` of `SDL_GetKeyboardState`, at the four scancodes
that `process_input` reads. -/
structure KeyState where
  left : Bool
  right : Bool
  up : Bool
  down : Bool
deriving DecidableEq

/-- One turn of the body of `while (SDL_PollEvent(&event))`: the outer
`switch` on the event type and the inner one on the key. -/
def handle_event (status : AppStatus) : SDLEvent → AppStatus
  | .SDL_QUIT => AppStatus.TERMINATED
  | .SDL_WINDOWEVENT_CLOSE => AppStatus.TERMINATED
  | .SDL_KEYDOWN sym => if sym = SDLK_q then AppStatus.TERMINATED else status
  | .other => status

/-- The two `if / else if` chains of `process_input` on the keyboard state,
applied to the player. -/
def apply_keys (keys : KeyState) (p : Entity) : Entity :=
  let p1 := if keys.left then p.move_left
            else if keys.right then p.move_right
            else p
  if keys.up then p1.move_up
  else if keys.down then p1.move_down
  else p1

/-- The function `process_input` up to, and without, its last statement
`if (glm::length(movement) > 1.0f) normalise_movement();`. -/
def process_input_keys (events : List SDLEvent) (keys : KeyState) (w : World) : World :=
  let p0 := w.g_game_state.player.set_movement Vec3.zero
  let status := events.foldl handle_event w.g_app_status
  let p2 := apply_keys keys p0
  { w with g_game_state := { w.g_game_state with player := p2 }, g_app_status := status }

/-- The function `process_input()`: `events` is what `SDL_PollEvent` delivers
until the queue is empty, `keys` what `SDL_GetKeyboardState` shows. -/
def process_input (normalize : Vec3 → Vec3) (events : List SDLEvent) (keys : KeyState)
    (w : World) : World :=
  let w1 := process_input_keys events keys w
  if w1.g_game_state.player.get_movement.lengthGtOne then
    { w1 with g_game_state :=
        { w1.g_game_state with player := w1.g_game_state.player.normalise_movement normalize } }
  else w1

/-! ## `update` -/

/-- What the event log records: a call `player->update(delta_time, hook, 1)`,
an execution of the lose branch, an execution of the win branch. -/
inductive Ev where
  | step (delta_time : ℚ)
  | lose
  | win
deriving DecidableEq

/-- Number of `player->update` calls in a log. -/
def stepCount (log : List Ev) : Nat :=
  (log.filter (fun e => match e with | .step _ => true | _ => false)).length

/-- Number of executions of the lose branch in a log. -/
def loseCount (log : List Ev) : Nat := log.count Ev.lose

/-- The local `delta_time` and the two entities the loop of `update` works
on, with the log of the steps run. -/
structure LoopState where
  delta_time : ℚ
  player : Entity
  hook : Entity
  log : List Ev

/-- The loop `while (delta_time >= FIXED_TIMESTEP) { player->update(FIXED_TIMESTEP,
hook, PLATFORM_COUNT); delta_time -= FIXED_TIMESTEP; }` of `update`. -/
def stepLoop (impl : EntityImpl) (delta_time : ℚ) (player hook : Entity) : LoopState :=
  if FIXED_TIMESTEP ≤ delta_time then
    let ph := impl.update player FIXED_TIMESTEP hook PLATFORM_COUNT
    let r := stepLoop impl (delta_time - FIXED_TIMESTEP) ph.1 ph.2
    { r with log := Ev.step FIXED_TIMESTEP :: r.log }
  else
    { delta_time := delta_time, player := player, hook := hook, log := [] }
termination_by (⌊delta_time / FIXED_TIMESTEP⌋).toNat
decreasing_by
  rename_i h
  have hpos : (0 : ℚ) < FIXED_TIMESTEP := by norm_num [FIXED_TIMESTEP]
  have e : (delta_time - FIXED_TIMESTEP) / FIXED_TIMESTEP
      = delta_time / FIXED_TIMESTEP - 1 := by
    field_simp
  have h1 : (1 : ℤ) ≤ ⌊delta_time / FIXED_TIMESTEP⌋ := by
    rw [Int.le_floor]
    rw [le_div_iff₀ hpos]
    simpa using h
  rw [e, Int.floor_sub_one]
  omega

/-- The lose test of `update`: `if (player->get_position().y < -2.1f) { game_end
= true; win_loose = 0; player->set_velocity(glm::vec3(0.0f, 0.0f, 0.0f)); }`. -/
def loseCheck (w : World) : World × List Ev :=
  if w.g_game_state.player.get_position.y < LOSE_Y then
    ({ w with
        game_end := true, win_loose := 0,
        g_game_state := { w.g_game_state with
          player := w.g_game_state.player.set_velocity ⟨0, 0, 0⟩ } },
     [Ev.lose])
  else (w, [])

/-- The win test of `update`: `if (player->check_collision(hook)) { game_end =
true; win_loose = 1; }`. -/
def winCheck (impl : EntityImpl) (w : World) : World × List Ev :=
  if impl.check_collision w.g_game_state.player w.g_game_state.hook then
    ({ w with game_end := true, win_loose := 1 }, [Ev.win])
  else (w, [])

/-- The function `update()`; `ticks` is the clock reading
`(float)SDL_GetTicks() / MILLISECONDS_IN_SECOND` of this call. -/
def update (impl : EntityImpl) (ticks : ℚ) (w : World) : World × List Ev :=
  let delta_time := ticks - w.g_previous_ticks
  let w1 := { w with g_previous_ticks := ticks }
  let delta_time := delta_time + w1.g_time_accumulator
  if delta_time < FIXED_TIMESTEP then
    ({ w1 with g_time_accumulator := delta_time }, [])
  else
    let r := stepLoop impl delta_time w1.g_game_state.player w1.g_game_state.hook
    let w2 := { w1 with
      g_game_state := { w1.g_game_state with player := r.player, hook := r.hook },
      g_time_accumulator := r.delta_time }
    let l := loseCheck w2
    let v := winCheck impl l.1
    (v.1, r.log ++ l.2 ++ v.2)

/-! ## `render` and the main loop -/

/-- The entities of `GameState` that `render` can draw. -/
inductive Sprite where
  | player
  | bigfish
  | hook
  | win
  | loose
deriving DecidableEq

/-- The function `render()`: the entities whose `render` method is called, in
order. -/
def render (w : World) : List Sprite :=
  [Sprite.player, Sprite.bigfish, Sprite.hook] ++
    (if w.game_end && decide (w.win_loose = 1) then [Sprite.win]
     else if w.game_end && decide (w.win_loose = 0) then [Sprite.loose]
     else [])

/-- What one turn of the main loop reads from outside: the pending events,
the keyboard state and the clock. -/
structure Frame where
  events : List SDLEvent
  keys : KeyState
  ticks : ℚ

/-- A frame with no event and no key held, at clock reading `ticks`. -/
def Frame.idle (ticks : ℚ) : Frame :=
  { events := [], keys := ⟨false, false, false, false⟩, ticks := ticks }

/-- The body `process_input(); update(); render();` of the main loop. -/
def frame (impl : EntityImpl) (normalize : Vec3 → Vec3) (f : Frame) (w : World) :
    World × List Ev × List Sprite :=
  let w1 := process_input normalize f.events f.keys w
  let u := update impl f.ticks w1
  (u.1, u.2, render u.1)

/-- The loop `while (g_app_status == RUNNING) { process_input(); update();
render(); }` of `main`, run on the frames given (the loop itself goes on as
long as frames arrive and the status is `RUNNING`); it returns the last
`World` and the log of all its `update` calls. -/
def mainLoop (impl : EntityImpl) (normalize : Vec3 → Vec3) : List Frame → World → World × List Ev
  | [], w => (w, [])
  | f :: fs, w =>
    if w.g_app_status = AppStatus.RUNNING then
      let r := frame impl normalize f w
      let rest := mainLoop impl normalize fs r.1
      (rest.1, r.2.1 ++ rest.2)
    else (w, [])

/-! ## The absent `Entity.cpp`, after the specification

Used only to evaluate the functions of `main.cpp` at concrete inputs; the
general theorems below hold for every `EntityImpl`. -/

/-- Source: `static constexpr int SECONDS_PER_FRAME = 4;` -/
def SECONDS_PER_FRAME : Int := 4

/-- Modelled from the spec: the body of `Entity::check_collision`
(`Entity.cpp`) is missing.  Spec 4.1: an axis-aligned box overlap test using
each entity's `position ± (scale * width/height * 0.5)`, true iff the
projections overlap on both the X and the Y axis; an entity of zero extent
never collides. -/
def Entity.check_collision_spec (a b : Entity) : Bool :=
  let ax := a.m_scale.x * a.m_width * (1 / 2)
  let ay := a.m_scale.y * a.m_height * (1 / 2)
  let bx := b.m_scale.x * b.m_width * (1 / 2)
  let by_ := b.m_scale.y * b.m_height * (1 / 2)
  decide (0 < ax) && decide (0 < ay) && decide (0 < bx) && decide (0 < by_)
    && decide (a.m_position.x - ax < b.m_position.x + bx)
    && decide (b.m_position.x - bx < a.m_position.x + ax)
    && decide (a.m_position.y - ay < b.m_position.y + by_)
    && decide (b.m_position.y - by_ < a.m_position.y + ay)

/-- Modelled from the spec: the body of `Entity::update` (`Entity.cpp`) is
missing.  Spec 4.1, steps 1 to 5: (1) `velocity.x += acceleration.x * dt`,
damped (the spec leaves the law open; the linear factor `1 - drag * dt` is
taken), `velocity.y += acceleration.y * dt`; (2, 3) `position += velocity *
dt`, the vertical movement intent added directly to `position.y` (at `speed`);
(4) the animation timer accumulates `dt` and, every `SECONDS_PER_FRAME` ticks
of 1/60 s, the frame index advances modulo the frame count and the timer is
reset; (5) the model matrix is `translate(position) · scale(scale)`.  The
other entities are not changed.  Its own arithmetic is exact; the concrete
calls below use entities at rest, or read off only the velocity and an
overlap that holds by a wide margin, which no rounding of the position
changes. -/
def Entity.update_spec (e : Entity) (delta_time : ℚ) : Entity :=
  let vx := (e.m_velocity.x + e.m_acceleration.x * delta_time) * (1 - e.m_drag * delta_time)
  let vy := e.m_velocity.y + e.m_acceleration.y * delta_time
  let vz := e.m_velocity.z
  let pos : Vec3 :=
    ⟨e.m_position.x + vx * delta_time,
     e.m_position.y + vy * delta_time + e.m_movement.y * e.m_speed * delta_time,
     e.m_position.z + vz * delta_time⟩
  let t := e.m_animation_time + delta_time
  let advance : Bool := decide ((SECONDS_PER_FRAME : ℚ) * (1 / 60) ≤ t)
  { e with
    m_velocity := ⟨vx, vy, vz⟩
    m_position := pos
    m_animation_time := if advance then 0 else t
    m_animation_index :=
      if advance then (e.m_animation_index + 1) % e.m_animation_frames else e.m_animation_index
    m_model_matrix := fun r c =>
      if c = 3 then (if r = 0 then pos.x else if r = 1 then pos.y else if r = 2 then pos.z else 1)
      else if r = c then
        (if r = 0 then e.m_scale.x else if r = 1 then e.m_scale.y else e.m_scale.z)
      else 0 }

/-- The two bodies of `Entity.cpp` as the specification describes them. -/
def specImpl : EntityImpl :=
  { update := fun self delta_time other _count => (self.update_spec delta_time, other)
    check_collision := Entity.check_collision_spec }

/-! ## Concrete states -/

/-- An entity at rest: unit box, scale `(1, 1, 0)`, no velocity, no
acceleration, no movement intent, facing down, with the player's animation
table of `initialise`. -/
def restingEntity (position : Vec3) : Entity :=
  { m_walking := fun i j => (j : Int) * 4 + (if i = 0 then 1 else if i = 1 then 3
                              else if i = 2 then 2 else 0)
    m_movement := Vec3.zero
    m_position := position
    m_scale := ⟨1, 1, 0⟩
    m_velocity := Vec3.zero
    m_acceleration := Vec3.zero
    m_model_matrix := fun r c => if r = c then 1 else 0
    m_speed := 1
    m_drag := 1 / 2
    m_texture_id := 0
    m_animation_cols := 4
    m_animation_frames := 4
    m_animation_index := 0
    m_animation_rows := 4
    m_animation_indices := some AnimationDirection.DOWN.row
    m_animation_time := 0
    m_width := 1
    m_height := 1
    m_up_power := 3 / 10
    m_is_up := false
    m_is_press := false }

/-- A world at clock 0 with an empty accumulator, no end condition recorded,
the big fish at `(0, -2, 0)` and the overlays at the origin as `initialise`
places them, and the player and the hook where told. -/
def worldWith (player hook : Entity) : World :=
  { g_game_state :=
      { player := player
        bigfish := { restingEntity ⟨0, -2, 0⟩ with m_scale := ⟨8, 1, 0⟩ }
        hook := hook
        win := { restingEntity ⟨0, 0, 0⟩ with m_scale := ⟨9, 6, 0⟩ }
        loose := { restingEntity ⟨0, 0, 0⟩ with m_scale := ⟨9, 6, 0⟩ } }
    g_app_status := AppStatus.RUNNING
    g_previous_ticks := 0
    g_time_accumulator := 0
    game_end := false
    win_loose := 0 }

/-- The hook where `initialise` puts it: position `(2.5, 1, 0)`, scale `(1, 1, 0)`. -/
def hookInit : Entity := restingEntity ⟨5 / 2, 1, 0⟩

/-! ## Binary32 arithmetic

A finite `float` is a rational on the binary32 grid; an operation is the exact
operation followed by `F32.rnd`.  Overflow to infinity is not modelled: it
needs a magnitude of `2^128`, and every time `update` handles comes from a
32-bit millisecond count divided by 1000, so it stays below `2^23`. -/

/-- The integer nearest to `r`, a tie going to the even neighbour. -/
def F32.roundHalfEven (r : ℚ) : ℤ :=
  if r - ⌊r⌋ < 1 / 2 then ⌊r⌋
  else if 1 / 2 < r - ⌊r⌋ then ⌊r⌋ + 1
  else if ⌊r⌋ % 2 = 0 then ⌊r⌋ else ⌊r⌋ + 1

/-- The exponent of the binary32 unit in the last place at magnitude `q`: 24
significant bits above `2^-126`, the fixed spacing `2^-149` below. -/
def F32.ulpExp (q : ℚ) : ℤ := max (Int.log 2 |q| - 23) (-149)

/-- Rounding to the nearest binary32 value, ties to even. -/
def F32.rnd (q : ℚ) : ℚ :=
  (F32.roundHalfEven (q / 2 ^ F32.ulpExp q) : ℚ) * 2 ^ F32.ulpExp q

/-- The `float` sum `a + b`. -/
def F32.add (a b : ℚ) : ℚ := F32.rnd (a + b)

/-- The `float` difference `a - b`. -/
def F32.sub (a b : ℚ) : ℚ := F32.rnd (a - b)

/-- The `float` quotient `a / b`. -/
def F32.div (a b : ℚ) : ℚ := F32.rnd (a / b)

/-- The conversion `(float)n` of an unsigned integer. -/
def F32.ofNat (n : Nat) : ℚ := F32.rnd n

/-- The bound `2^-24 * x + 2^-150` on the error of one rounding of a value of
magnitude at most `x`. -/
def F32.slack (x : ℚ) : ℚ := 2 ^ (-24 : ℤ) * x + 2 ^ (-150 : ℤ)

/-! ## `update` in binary32

The same function `update`, with the `float` variables and operations of
`main.cpp` rounded as the machine rounds them.  The loop need not terminate
in this arithmetic, so it takes a bound `fuel` on the number of its turns and
returns `none` when the bound is hit. -/

/-- Source: `constexpr float MILLISECONDS_IN_SECOND = 1000.0;` -/
def MILLISECONDS_IN_SECOND : ℚ := 1000

/-- Source: `constexpr float FIXED_TIMESTEP = 1.0f / 60.0f;`, the binary32
quotient (`8947849 / 2^29`, see `FIXED_TIMESTEP32_eq`). -/
def FIXED_TIMESTEP32 : ℚ := F32.div 1 60

/-- The literal `-2.1f` of the lose test, the binary32 value nearest to -2.1. -/
def LOSE_Y32 : ℚ := F32.rnd (-21 / 10)

/-- The clock reading `(float)SDL_GetTicks() / MILLISECONDS_IN_SECOND` when
`SDL_GetTicks()` returns `ms`. -/
def clock32 (ms : Nat) : ℚ := F32.div (F32.ofNat ms) MILLISECONDS_IN_SECOND

/-- The value of `delta_time` after `delta_time += g_time_accumulator`: what
the loop of `update` starts from. -/
def pending32 (ms : Nat) (w : World) : ℚ :=
  F32.add (F32.sub (clock32 ms) w.g_previous_ticks) w.g_time_accumulator

/-- The loop `while (delta_time >= FIXED_TIMESTEP) { player->update(FIXED_TIMESTEP,
hook, PLATFORM_COUNT); delta_time -= FIXED_TIMESTEP; }` in binary32, for at
most `fuel` turns. -/
def stepLoop32 (impl : EntityImpl) : Nat → ℚ → Entity → Entity → Option LoopState
  | 0, delta_time, player, hook =>
    if FIXED_TIMESTEP32 ≤ delta_time then none
    else some { delta_time := delta_time, player := player, hook := hook, log := [] }
  | fuel + 1, delta_time, player, hook =>
    if FIXED_TIMESTEP32 ≤ delta_time then
      let ph := impl.update player FIXED_TIMESTEP32 hook PLATFORM_COUNT
      match stepLoop32 impl fuel (F32.sub delta_time FIXED_TIMESTEP32) ph.1 ph.2 with
      | none => none
      | some r => some { r with log := Ev.step FIXED_TIMESTEP32 :: r.log }
    else
      some { delta_time := delta_time, player := player, hook := hook, log := [] }

/-- The lose test of `update` with the binary32 literal: `if
(player->get_position().y < -2.1f) { game_end = true; win_loose = 0;
player->set_velocity(glm::vec3(0.0f, 0.0f, 0.0f)); }`. -/
def loseCheck32 (w : World) : World × List Ev :=
  if w.g_game_state.player.get_position.y < LOSE_Y32 then
    ({ w with
        game_end := true, win_loose := 0,
        g_game_state := { w.g_game_state with
          player := w.g_game_state.player.set_velocity ⟨0, 0, 0⟩ } },
     [Ev.lose])
  else (w, [])

/-- The function `update()` in binary32, when `SDL_GetTicks()` returns `ms`;
`none` when the loop is still running after `fuel` turns. -/
def update32 (impl : EntityImpl) (fuel : Nat) (ms : Nat) (w : World) :
    Option (World × List Ev) :=
  let ticks := clock32 ms
  let delta_time := F32.sub ticks w.g_previous_ticks
  let w1 := { w with g_previous_ticks := ticks }
  let delta_time := F32.add delta_time w1.g_time_accumulator
  if delta_time < FIXED_TIMESTEP32 then
    some ({ w1 with g_time_accumulator := delta_time }, [])
  else
    match stepLoop32 impl fuel delta_time w1.g_game_state.player w1.g_game_state.hook with
    | none => none
    | some r =>
      let w2 := { w1 with
        g_game_state := { w1.g_game_state with player := r.player, hook := r.hook },
        g_time_accumulator := r.delta_time }
      let l := loseCheck32 w2
      let v := winCheck impl l.1
      some (v.1, r.log ++ l.2 ++ v.2)

/-- The world of `update` right after its loop returned `r`, before the two
end tests. -/
def afterLoop32 (ms : Nat) (w : World) (r : LoopState) : World :=
  { w with
    g_previous_ticks := clock32 ms
    g_game_state := { w.g_game_state with player := r.player, hook := r.hook }
    g_time_accumulator := r.delta_time }

/-- What a call of `update` that passed the early return hands back once its
loop returned `r`: the world after the two end tests, and the log. -/
def finish32 (impl : EntityImpl) (ms : Nat) (w : World) (r : LoopState) : World × List Ev :=
  ((winCheck impl (loseCheck32 (afterLoop32 ms w r)).1).1,
   r.log ++ (loseCheck32 (afterLoop32 ms w r)).2
    ++ (winCheck impl (loseCheck32 (afterLoop32 ms w r)).1).2)

/-- What one turn of the main loop reads from outside, the clock as the
millisecond count of `SDL_GetTicks()`. -/
structure Frame32 where
  events : List SDLEvent
  keys : KeyState
  ms : Nat

/-- The loop `while (g_app_status == RUNNING) { process_input(); update();
render(); }` of `main` with `update` in binary32, run on the frames given; it
returns the last `World` and the log of all its `update` calls, or `none`
when one of these calls does not return within `fuel` turns of its loop. -/
def mainLoop32 (impl : EntityImpl) (normalize : Vec3 → Vec3) (fuel : Nat) :
    List Frame32 → World → Option (World × List Ev)
  | [], w => some (w, [])
  | f :: fs, w =>
    if w.g_app_status = AppStatus.RUNNING then
      match update32 impl fuel f.ms (process_input normalize f.events f.keys w) with
      | none => none
      | some r =>
        match mainLoop32 impl normalize fuel fs r.1 with
        | none => none
        | some rest => some (rest.1, r.2 ++ rest.2)
    else some (w, [])

/-- The player and the hook after `n` successive calls
`player->update(FIXED_TIMESTEP, hook, PLATFORM_COUNT)`. -/
def applySteps32 (impl : EntityImpl) : Nat → Entity × Entity → Entity × Entity
  | 0, ph => ph
  | n + 1, ph =>
    applySteps32 impl n (impl.update ph.1 FIXED_TIMESTEP32 ph.2 PLATFORM_COUNT)

/-! ## The geometry of the game -/

/-- What the geometry needs of the absent `Entity.cpp`, after spec 4.1: the
collision test is the box overlap test, and `Entity::update` changes none of
the other entities and assigns neither `m_scale` nor `m_width` nor `m_height`
of its own entity. -/
def EntityImpl.FollowsSpec (impl : EntityImpl) : Prop :=
  impl.check_collision = Entity.check_collision_spec
  ∧ ∀ (self : Entity) (delta_time : ℚ) (other : Entity) (count : Int),
      (impl.update self delta_time other count).2 = other
      ∧ (impl.update self delta_time other count).1.m_scale = self.m_scale
      ∧ (impl.update self delta_time other count).1.m_width = self.m_width
      ∧ (impl.update self delta_time other count).1.m_height = self.m_height

/-- The hook as `initialise` builds it and nothing in `main.cpp` changes it:
position `(2.5, 1, 0)`, scale `(1, 1, 0)`, and the width and height 1 that
`Entity.h` gives every entity. -/
def HookAsBuilt (hook : Entity) : Prop :=
  hook.m_position = ⟨5 / 2, 1, 0⟩ ∧ hook.m_scale = ⟨1, 1, 0⟩
  ∧ hook.m_width = 1 ∧ hook.m_height = 1

/-- The player's box is at most 5.2 high, so that a player centred below -2.1
stays under the lower edge 0.5 of the hook; the unit box of the game
(`m_width = m_height = 1` of `Entity.h`, scale 1) is such a box. -/
def PlayerBoxLow (player : Entity) : Prop :=
  player.m_scale.y * (player.m_height : ℚ) ≤ 26 / 5

/-! ## Observations on a call of `update` -/

/-- The elapsed time a call of `update` works with: the gap since the last
call plus the accumulator. -/
def pending (ticks : ℚ) (w : World) : ℚ :=
  ticks - w.g_previous_ticks + w.g_time_accumulator

/-- The world of `update` right after its loop, before the two end tests. -/
def afterLoop (impl : EntityImpl) (ticks : ℚ) (w : World) : World :=
  let r := stepLoop impl (ticks - w.g_previous_ticks + w.g_time_accumulator)
    w.g_game_state.player w.g_game_state.hook
  { w with
    g_previous_ticks := ticks
    g_game_state := { w.g_game_state with player := r.player, hook := r.hook }
    g_time_accumulator := r.delta_time }

/-- The steps logged by the loop of `update`. -/
def loopLog (impl : EntityImpl) (ticks : ℚ) (w : World) : List Ev :=
  (stepLoop impl (ticks - w.g_previous_ticks + w.g_time_accumulator)
    w.g_game_state.player w.g_game_state.hook).log

/-- The world after the loop of a call that runs exactly one step. -/
def afterOneStep (impl : EntityImpl) (ticks : ℚ) (w : World) : World :=
  { w with
    g_previous_ticks := ticks
    g_game_state := { w.g_game_state with
      player := (impl.update w.g_game_state.player FIXED_TIMESTEP
                  w.g_game_state.hook PLATFORM_COUNT).1
      hook := (impl.update w.g_game_state.player FIXED_TIMESTEP
                  w.g_game_state.hook PLATFORM_COUNT).2 }
    g_time_accumulator := ticks - w.g_previous_ticks + w.g_time_accumulator - FIXED_TIMESTEP }

/-- The player's `get_position().y`, what the lose test reads. -/
def playerY (w : World) : ℚ := w.g_game_state.player.get_position.y

/-- The value of `player->check_collision(hook)`, what the win test reads. -/
def collides (impl : EntityImpl) (w : World) : Bool :=
  impl.check_collision w.g_game_state.player w.g_game_state.hook

/-- The player at rest at `(0, -3, 0)`, below the threshold and away from the
hook of `initialise`. -/
def lowWorld : World := worldWith (restingEntity ⟨0, -3, 0⟩) hookInit

/-- The player and the hook both at rest at `(0, -3, 0)`: below the threshold
and on top of each other. -/
def bothWorld : World := worldWith (restingEntity ⟨0, -3, 0⟩) (restingEntity ⟨0, -3, 0⟩)

/-- The player on the hook of `initialise`, moving up at speed 1. -/
def risingWorld : World :=
  worldWith { restingEntity ⟨5 / 2, 1, 0⟩ with m_velocity := ⟨0, 1, 0⟩ } hookInit

/-! ## Theorems: the intent setters of `Entity.h` -/


/-- The test on the squared length agrees with `glm::length(v) > 1.0f` on the
real square root. -/
theorem length_gt_one_iff (v : Vec3) :
    v.lengthGtOne = true ↔ 1 < Real.sqrt ((v.lengthSq : ℚ) : ℝ) := by
  unfold Vec3.lengthGtOne
  rw [decide_eq_true_iff]
  constructor
  · intro h
    have h1 : (1 : ℝ) < ((v.lengthSq : ℚ) : ℝ) := by exact_mod_cast h
    rw [Real.lt_sqrt (by norm_num)]
    simpa using h1
  · intro h
    rw [Real.lt_sqrt (by norm_num)] at h
    have h1 : (1 : ℝ) < ((v.lengthSq : ℚ) : ℝ) := by simpa using h
    exact_mod_cast h1

/-- C7: `move_left` makes `acceleration.x` negative (-0.3), selects the LEFT
row and sets `m_is_press`; `move_right` makes it positive (+0.3), selects the
RIGHT row and sets `m_is_press`; `move_up` sets `movement.y` to +1 and sets
`m_is_up`; `move_down` sets `movement.y` to -1; none of the four changes
position, velocity, scale, `acceleration.y` or the current frame index. -/
theorem move_intent_effects (e : Entity) :
    (e.move_left.m_acceleration.x = -3 / 10 ∧ e.move_left.m_acceleration.x < 0
      ∧ e.move_left.m_animation_indices = some AnimationDirection.LEFT.row
      ∧ e.move_left.activeSequence = some (e.m_walking AnimationDirection.LEFT.row)
      ∧ e.move_left.m_is_press = true)
    ∧ (e.move_right.m_acceleration.x = 3 / 10 ∧ 0 < e.move_right.m_acceleration.x
      ∧ e.move_right.m_animation_indices = some AnimationDirection.RIGHT.row
      ∧ e.move_right.activeSequence = some (e.m_walking AnimationDirection.RIGHT.row)
      ∧ e.move_right.m_is_press = true)
    ∧ (e.move_up.m_movement.y = 1 ∧ e.move_up.m_is_up = true)
    ∧ e.move_down.m_movement.y = -1
    ∧ ∀ f ∈ [Entity.move_left, Entity.move_right, Entity.move_up, Entity.move_down],
        (f e).m_position = e.m_position ∧ (f e).m_velocity = e.m_velocity
        ∧ (f e).m_scale = e.m_scale ∧ (f e).m_acceleration.y = e.m_acceleration.y
        ∧ (f e).m_animation_index = e.m_animation_index := by
  refine ⟨⟨rfl, ?_, rfl, rfl, rfl⟩, ⟨rfl, ?_, rfl, rfl, rfl⟩, ⟨rfl, rfl⟩, rfl, ?_⟩
  · show (-3 / 10 : ℚ) < 0
    norm_num
  · show (0 : ℚ) < 3 / 10
    norm_num
  · intro f hf
    simp only [List.mem_cons, List.mem_singleton, List.not_mem_nil, or_false] at hf
    rcases hf with h | h | h | h <;> subst h <;> exact ⟨rfl, rfl, rfl, rfl, rfl⟩

/-- C8: for every entity and direction `d`, `face d` makes the active
sequence row `d` of the entity's own table, so after a later `set_walking w`
the active sequence is `w[d]`; it leaves `m_animation_index` and every other
field as they were; and calling it twice equals calling it once. -/
theorem face_sets_row (e : Entity) (d : AnimationDirection) (w : Fin 4 → Fin 4 → Int) :
    (Entity.face d e).m_animation_indices = some d.row
    ∧ (Entity.face d e).activeSequence = some (e.m_walking d.row)
    ∧ ((Entity.face d e).set_walking w).activeSequence = some (w d.row)
    ∧ (Entity.face d e).m_animation_index = e.m_animation_index
    ∧ Entity.face d e = { e with m_animation_indices := some d.row }
    ∧ Entity.face d (Entity.face d e) = Entity.face d e := by
  cases d <;> exact ⟨rfl, rfl, rfl, rfl, rfl, rfl⟩

/-! ## Theorems: `process_input` -/

theorem apply_keys_movement (keys : KeyState) (p : Entity) :
    (apply_keys keys p).m_movement =
      if keys.up then { p.m_movement with y := 1 }
      else if keys.down then { p.m_movement with y := -1 }
      else p.m_movement := by
  rcases keys with ⟨l, r, u, d⟩
  cases l <;> cases r <;> cases u <;> cases d <;> rfl

theorem process_input_keys_movement (events : List SDLEvent) (keys : KeyState) (w : World) :
    (process_input_keys events keys w).g_game_state.player.m_movement =
      if keys.up then ⟨0, 1, 0⟩ else if keys.down then ⟨0, -1, 0⟩ else ⟨0, 0, 0⟩ := by
  show (apply_keys keys (w.g_game_state.player.set_movement Vec3.zero)).m_movement = _
  rw [apply_keys_movement]
  rfl

theorem process_input_keys_not_long (events : List SDLEvent) (keys : KeyState) (w : World) :
    (process_input_keys events keys w).g_game_state.player.get_movement.lengthGtOne = false := by
  unfold Entity.get_movement
  rw [process_input_keys_movement]
  rcases keys with ⟨l, r, u, d⟩
  cases u <;> cases d <;> simp [Vec3.lengthGtOne, Vec3.lengthSq]

theorem process_input_eq_keys (normalize : Vec3 → Vec3) (events : List SDLEvent)
    (keys : KeyState) (w : World) :
    process_input normalize events keys w = process_input_keys events keys w := by
  unfold process_input
  simp [process_input_keys_not_long]

/-- C6: for every prior state, every pending events and every combination of
held keys, after `process_input` the player's movement is `(0,1,0)` if Up is
held, `(0,-1,0)` if Down is held and Up is not, `(0,0,0)` otherwise; its
length is at most 1; and the test guarding `normalise_movement` is false, so
the result does not depend on `glm::normalize`. -/
theorem process_input_movement_bounded (normalize : Vec3 → Vec3) (events : List SDLEvent)
    (keys : KeyState) (w : World) :
    (process_input normalize events keys w).g_game_state.player.m_movement
        = (if keys.up then ⟨0, 1, 0⟩ else if keys.down then ⟨0, -1, 0⟩ else ⟨0, 0, 0⟩)
    ∧ (process_input normalize events keys w).g_game_state.player.m_movement.lengthSq ≤ 1
    ∧ Real.sqrt
        (((process_input normalize events keys w).g_game_state.player.m_movement.lengthSq : ℚ) : ℝ)
        ≤ 1
    ∧ (process_input_keys events keys w).g_game_state.player.get_movement.lengthGtOne = false
    ∧ process_input normalize events keys w = process_input_keys events keys w := by
  have hm := process_input_keys_movement events keys w
  have hq : (process_input_keys events keys w).g_game_state.player.m_movement.lengthSq ≤ 1 := by
    rw [hm]
    rcases keys with ⟨l, r, u, d⟩
    cases u <;> cases d <;> simp [Vec3.lengthSq]
  rw [process_input_eq_keys]
  refine ⟨hm, hq, ?_, process_input_keys_not_long events keys w, rfl⟩
  rw [Real.sqrt_le_one]
  exact_mod_cast hq

/-- C5, as stated, fails: a player at rest (`acceleration.x = 0`, `m_is_press`
clear) calls `move_left`; a later `process_input` with no event and no key
held leaves `acceleration.x = -0.3` and `m_is_press` set, although the
movement vector is zero (`glm::normalize` is never called, see C6; the
identity stands in for it). -/
theorem process_input_keeps_stale_intent :
    (restingEntity ⟨0, 2, 0⟩).m_acceleration.x = 0
    ∧ (restingEntity ⟨0, 2, 0⟩).m_is_press = false
    ∧ (process_input id [] ⟨false, false, false, false⟩
        (worldWith (restingEntity ⟨0, 2, 0⟩).move_left hookInit)).g_game_state.player.m_movement
        = Vec3.zero
    ∧ (process_input id [] ⟨false, false, false, false⟩
        (worldWith (restingEntity ⟨0, 2, 0⟩).move_left hookInit)).g_game_state.player.m_acceleration.x
        = -3 / 10
    ∧ (process_input id [] ⟨false, false, false, false⟩
        (worldWith (restingEntity ⟨0, 2, 0⟩).move_left hookInit)).g_game_state.player.m_is_press
        = true := by
  rw [process_input_eq_keys]
  exact ⟨rfl, rfl, rfl, rfl, rfl⟩

/-- C5, amended: after `process_input` with no movement key held the player's
movement is the zero vector and every other field of the player, among them
the acceleration, `m_is_press`, `m_is_up` and the animation row, is what it
was before the call. -/
theorem process_input_no_key_resets_movement_only (normalize : Vec3 → Vec3)
    (events : List SDLEvent) (w : World) :
    (process_input normalize events ⟨false, false, false, false⟩ w).g_game_state.player
        = { w.g_game_state.player with m_movement := Vec3.zero }
    ∧ (process_input normalize events ⟨false, false, false, false⟩ w).g_game_state.player.m_movement
        = Vec3.zero
    ∧ (process_input normalize events ⟨false, false, false, false⟩ w).g_game_state.player.m_acceleration
        = w.g_game_state.player.m_acceleration
    ∧ (process_input normalize events ⟨false, false, false, false⟩ w).g_game_state.player.m_is_press
        = w.g_game_state.player.m_is_press
    ∧ (process_input normalize events ⟨false, false, false, false⟩ w).g_game_state.player.m_is_up
        = w.g_game_state.player.m_is_up
    ∧ (process_input normalize events ⟨false, false, false, false⟩ w).g_game_state.player.m_animation_indices
        = w.g_game_state.player.m_animation_indices := by
  rw [process_input_eq_keys]
  exact ⟨rfl, rfl, rfl, rfl, rfl, rfl⟩

/-! ## Theorems: the stepping loop of `update` -/

theorem stepLoop_ge (impl : EntityImpl) {delta_time : ℚ} (player hook : Entity)
    (h : FIXED_TIMESTEP ≤ delta_time) :
    stepLoop impl delta_time player hook =
      { stepLoop impl (delta_time - FIXED_TIMESTEP)
          (impl.update player FIXED_TIMESTEP hook PLATFORM_COUNT).1
          (impl.update player FIXED_TIMESTEP hook PLATFORM_COUNT).2 with
        log := Ev.step FIXED_TIMESTEP ::
          (stepLoop impl (delta_time - FIXED_TIMESTEP)
            (impl.update player FIXED_TIMESTEP hook PLATFORM_COUNT).1
            (impl.update player FIXED_TIMESTEP hook PLATFORM_COUNT).2).log } := by
  rw [stepLoop]
  simp [h]

theorem stepLoop_lt (impl : EntityImpl) {delta_time : ℚ} (player hook : Entity)
    (h : delta_time < FIXED_TIMESTEP) :
    stepLoop impl delta_time player hook =
      { delta_time := delta_time, player := player, hook := hook, log := [] } := by
  rw [stepLoop]
  simp [not_le.mpr h]

/-- The loop only logs steps, each with `FIXED_TIMESTEP` as its argument. -/
theorem stepLoop_log (impl : EntityImpl) (delta_time : ℚ) (player hook : Entity) :
    (stepLoop impl delta_time player hook).log
      = List.replicate (stepLoop impl delta_time player hook).log.length
          (Ev.step FIXED_TIMESTEP) := by
  induction delta_time, player, hook using stepLoop.induct impl with
  | case1 dt p h hge ph ih =>
    rw [stepLoop_ge impl p h hge]
    simp only [List.length_cons, List.replicate_succ]
    exact congrArg _ ih
  | case2 dt p h hlt =>
    rw [stepLoop_lt impl p h (not_le.mp hlt)]
    rfl

/-! ## Theorems: one call of `update` -/

theorem update_early (impl : EntityImpl) (ticks : ℚ) (w : World)
    (h : ticks - w.g_previous_ticks + w.g_time_accumulator < FIXED_TIMESTEP) :
    update impl ticks w =
      ({ w with g_previous_ticks := ticks,
                g_time_accumulator := ticks - w.g_previous_ticks + w.g_time_accumulator }, []) := by
  unfold update
  simp [h]

theorem update_late (impl : EntityImpl) (ticks : ℚ) (w : World)
    (h : FIXED_TIMESTEP ≤ ticks - w.g_previous_ticks + w.g_time_accumulator) :
    update impl ticks w =
      ((winCheck impl (loseCheck (afterLoop impl ticks w)).1).1,
       loopLog impl ticks w ++ (loseCheck (afterLoop impl ticks w)).2
        ++ (winCheck impl (loseCheck (afterLoop impl ticks w)).1).2) := by
  unfold update
  simp only [not_lt.mpr h, if_false]
  rfl

theorem stepCount_append (l₁ l₂ : List Ev) :
    stepCount (l₁ ++ l₂) = stepCount l₁ + stepCount l₂ := by
  simp [stepCount]

theorem stepCount_replicate (n : Nat) (dt : ℚ) :
    stepCount (List.replicate n (Ev.step dt)) = n := by
  induction n with
  | zero => rfl
  | succ k ih =>
    rw [List.replicate_succ]
    simp [stepCount]

theorem stepCount_loopLog (impl : EntityImpl) (ticks : ℚ) (w : World) :
    stepCount (loopLog impl ticks w) = (loopLog impl ticks w).length := by
  unfold loopLog
  rw [stepLoop_log, stepCount_replicate, List.length_replicate]

theorem loseCheck_log (w : World) : stepCount (loseCheck w).2 = 0 := by
  unfold loseCheck
  split_ifs <;> rfl

theorem winCheck_log (impl : EntityImpl) (w : World) : stepCount (winCheck impl w).2 = 0 := by
  unfold winCheck
  split_ifs <;> rfl

theorem winCheck_acc (impl : EntityImpl) (w : World) :
    (winCheck impl w).1.g_time_accumulator = w.g_time_accumulator := by
  unfold winCheck
  split_ifs <;> rfl

theorem winCheck_ticks (impl : EntityImpl) (w : World) :
    (winCheck impl w).1.g_previous_ticks = w.g_previous_ticks := by
  unfold winCheck
  split_ifs <;> rfl

/-- The number of steps a call of `update` runs is the length of its loop log,
and none when the call returns early. -/
theorem update_stepCount (impl : EntityImpl) (ticks : ℚ) (w : World) :
    stepCount (update impl ticks w).2 =
      if ticks - w.g_previous_ticks + w.g_time_accumulator < FIXED_TIMESTEP then 0
      else (loopLog impl ticks w).length := by
  by_cases h : ticks - w.g_previous_ticks + w.g_time_accumulator < FIXED_TIMESTEP
  · rw [update_early impl ticks w h, if_pos h]
    rfl
  · rw [update_late impl ticks w (not_lt.mp h), if_neg h]
    simp only [stepCount_append, loseCheck_log, winCheck_log, stepCount_loopLog]
    rfl

/-! ## Theorems: the end conditions of `update` -/

theorem playerY_loseCheck (w : World) : playerY (loseCheck w).1 = playerY w := by
  unfold loseCheck
  split_ifs <;> rfl

theorem winCheck_player (impl : EntityImpl) (w : World) :
    (winCheck impl w).1.g_game_state = w.g_game_state := by
  unfold winCheck
  split_ifs <;> rfl

theorem collides_winCheck (impl : EntityImpl) (w : World) :
    collides impl (winCheck impl w).1 = collides impl w := by
  unfold collides
  rw [winCheck_player]

theorem playerY_winCheck (impl : EntityImpl) (w : World) :
    playerY (winCheck impl w).1 = playerY w := by
  unfold playerY
  rw [winCheck_player]

/-- The two end tests in terms of the world they return: the log, `game_end`,
`win_loose` and the player's velocity. -/
theorem endChecks_spec (impl : EntityImpl) (w : World) :
    (loseCheck w).2 ++ (winCheck impl (loseCheck w).1).2
        = (if playerY (winCheck impl (loseCheck w).1).1 < LOSE_Y then [Ev.lose] else [])
          ++ (if collides impl (winCheck impl (loseCheck w).1).1 then [Ev.win] else [])
    ∧ (winCheck impl (loseCheck w).1).1.game_end
        = (w.game_end || decide (playerY (winCheck impl (loseCheck w).1).1 < LOSE_Y)
            || collides impl (winCheck impl (loseCheck w).1).1)
    ∧ (winCheck impl (loseCheck w).1).1.win_loose
        = (if collides impl (winCheck impl (loseCheck w).1).1 then 1
           else if playerY (winCheck impl (loseCheck w).1).1 < LOSE_Y then 0
           else w.win_loose)
    ∧ (winCheck impl (loseCheck w).1).1.g_game_state.player.m_velocity
        = (if playerY (winCheck impl (loseCheck w).1).1 < LOSE_Y then ⟨0, 0, 0⟩
           else w.g_game_state.player.m_velocity) := by
  rw [collides_winCheck, playerY_winCheck, playerY_loseCheck, winCheck_player]
  by_cases hy : playerY w < LOSE_Y
  · have hy2 : w.g_game_state.player.get_position.y < LOSE_Y := hy
    by_cases hc : collides impl (loseCheck w).1 = true
    · have hc2 : impl.check_collision (loseCheck w).1.g_game_state.player
          (loseCheck w).1.g_game_state.hook = true := hc
      simp only [winCheck, hc2, hc, hy, if_true]
      simp [loseCheck, hy2, Entity.set_velocity]
    · have hc2 : ¬ impl.check_collision (loseCheck w).1.g_game_state.player
          (loseCheck w).1.g_game_state.hook = true := hc
      simp only [winCheck, hc2, hc, hy, if_true, if_false]
      simp [loseCheck, hy2, Entity.set_velocity]
  · have hy2 : ¬ w.g_game_state.player.get_position.y < LOSE_Y := hy
    by_cases hc : collides impl (loseCheck w).1 = true
    · have hc2 : impl.check_collision (loseCheck w).1.g_game_state.player
          (loseCheck w).1.g_game_state.hook = true := hc
      simp only [winCheck, hc2, hc, hy, if_true, if_false]
      simp [loseCheck, hy2]
    · have hc2 : ¬ impl.check_collision (loseCheck w).1.g_game_state.player
          (loseCheck w).1.g_game_state.hook = true := hc
      simp only [winCheck, hc2, hc, hy, if_false]
      simp [loseCheck, hy2]

/-- A call of `update` that passes the early return: its log is the steps of
the loop, then the lose event iff the player ends below the threshold, then
the win event iff the player ends colliding with the hook; the flags and the
velocity on return follow the same two tests. -/
theorem update_late_spec (impl : EntityImpl) (ticks : ℚ) (w : World)
    (h : FIXED_TIMESTEP ≤ pending ticks w) :
    (update impl ticks w).2
        = loopLog impl ticks w
          ++ ((if playerY (update impl ticks w).1 < LOSE_Y then [Ev.lose] else [])
          ++ (if collides impl (update impl ticks w).1 then [Ev.win] else []))
    ∧ (update impl ticks w).1.game_end
        = (w.game_end || decide (playerY (update impl ticks w).1 < LOSE_Y)
            || collides impl (update impl ticks w).1)
    ∧ (update impl ticks w).1.win_loose
        = (if collides impl (update impl ticks w).1 then 1
           else if playerY (update impl ticks w).1 < LOSE_Y then 0
           else w.win_loose)
    ∧ (update impl ticks w).1.g_game_state.player.m_velocity
        = (if playerY (update impl ticks w).1 < LOSE_Y then ⟨0, 0, 0⟩
           else (afterLoop impl ticks w).g_game_state.player.m_velocity) := by
  have e := update_late impl ticks w h
  have s := endChecks_spec impl (afterLoop impl ticks w)
  rw [e]
  refine ⟨?_, s.2.1, s.2.2.1, s.2.2.2⟩
  show _ ++ _ ++ _ = _
  rw [List.append_assoc, s.1]

/-- A call of `update` runs at least one step exactly when it passes the
early return. -/
theorem one_le_stepCount_iff (impl : EntityImpl) (ticks : ℚ) (w : World) :
    1 ≤ stepCount (update impl ticks w).2 ↔ FIXED_TIMESTEP ≤ pending ticks w := by
  rw [update_stepCount]
  show 1 ≤ (if pending ticks w < FIXED_TIMESTEP then 0 else (loopLog impl ticks w).length) ↔ _
  by_cases h : pending ticks w < FIXED_TIMESTEP
  · rw [if_pos h]
    constructor
    · intro h1
      omega
    · intro h1
      exact absurd h (not_lt.mpr h1)
  · rw [if_neg h]
    constructor
    · intro _
      exact not_lt.mp h
    · intro hge
      have hge2 : FIXED_TIMESTEP ≤ ticks - w.g_previous_ticks + w.g_time_accumulator := hge
      unfold loopLog
      rw [stepLoop_ge impl _ _ hge2]
      simp

theorem loseCount_append (l₁ l₂ : List Ev) :
    loseCount (l₁ ++ l₂) = loseCount l₁ + loseCount l₂ := by
  simp [loseCount]

theorem loseCount_replicate_step (n : Nat) (dt : ℚ) :
    loseCount (List.replicate n (Ev.step dt)) = 0 := by
  simp [loseCount, List.count_replicate]

theorem loseCount_ite_lose (p : Prop) [Decidable p] :
    loseCount (if p then [Ev.lose] else []) = if p then 1 else 0 := by
  split_ifs <;> rfl

theorem loseCount_ite_win (p : Prop) [Decidable p] :
    loseCount (if p then [Ev.win] else []) = 0 := by
  split_ifs <;> rfl

theorem loopLog_replicate (impl : EntityImpl) (ticks : ℚ) (w : World)
    (h : FIXED_TIMESTEP ≤ pending ticks w) :
    loopLog impl ticks w
      = List.replicate (stepCount (update impl ticks w).2) (Ev.step FIXED_TIMESTEP) := by
  have h2 : ¬ ticks - w.g_previous_ticks + w.g_time_accumulator < FIXED_TIMESTEP :=
    not_lt.mpr h
  rw [update_stepCount, if_neg h2]
  exact stepLoop_log impl _ _ _

/-- C3, amended: in every call of `update` the lose test is made once, after
the last fixed step of the call and only if the call ran at least one step
(the log is the steps, then the lose event, then the win event); the lose
branch is executed in exactly the calls that pass the early return and end
with the player's y below -2.1, so in a later such call it is executed
again. -/
theorem update_lose_once_per_call (impl : EntityImpl) (ticks : ℚ) (w : World) :
    (update impl ticks w).2
        = List.replicate (stepCount (update impl ticks w).2) (Ev.step FIXED_TIMESTEP)
          ++ ((if FIXED_TIMESTEP ≤ pending ticks w ∧ playerY (update impl ticks w).1 < LOSE_Y
                then [Ev.lose] else [])
          ++ (if FIXED_TIMESTEP ≤ pending ticks w ∧ collides impl (update impl ticks w).1 = true
                then [Ev.win] else []))
    ∧ loseCount (update impl ticks w).2
        = (if FIXED_TIMESTEP ≤ pending ticks w ∧ playerY (update impl ticks w).1 < LOSE_Y
            then 1 else 0)
    ∧ (1 ≤ stepCount (update impl ticks w).2 ↔ FIXED_TIMESTEP ≤ pending ticks w) := by
  have shape : (update impl ticks w).2
        = List.replicate (stepCount (update impl ticks w).2) (Ev.step FIXED_TIMESTEP)
          ++ ((if FIXED_TIMESTEP ≤ pending ticks w ∧ playerY (update impl ticks w).1 < LOSE_Y
                then [Ev.lose] else [])
          ++ (if FIXED_TIMESTEP ≤ pending ticks w ∧ collides impl (update impl ticks w).1 = true
                then [Ev.win] else [])) := by
    by_cases hp : pending ticks w < FIXED_TIMESTEP
    · have hn : ¬ FIXED_TIMESTEP ≤ pending ticks w := not_le.mpr hp
      simp only [hn, false_and, if_false, List.append_nil]
      rw [update_early impl ticks w hp]
      rfl
    · have hge := not_lt.mp hp
      have sp := (update_late_spec impl ticks w hge).1
      rw [loopLog_replicate impl ticks w hge] at sp
      simp only [hge, true_and]
      exact sp
  refine ⟨shape, ?_, one_le_stepCount_iff impl ticks w⟩
  rw [shape, loseCount_append, loseCount_append, loseCount_replicate_step,
    loseCount_ite_lose, loseCount_ite_win]
  simp

/-- C10: in a call of `update` that runs at least one step and ends with the
player both below y = -2.1 and colliding with the hook, the lose branch runs
first and the win branch after it, the call returns with `game_end` true and
`win_loose = 1`, and `render` draws the win overlay and not the lose overlay;
and in no state does `render` draw both overlays. -/
theorem update_win_overrides_lose (impl : EntityImpl) (ticks : ℚ) (w : World)
    (h : 1 ≤ stepCount (update impl ticks w).2)
    (hy : playerY (update impl ticks w).1 < LOSE_Y)
    (hc : collides impl (update impl ticks w).1 = true) :
    (update impl ticks w).1.game_end = true
    ∧ (update impl ticks w).1.win_loose = 1
    ∧ (update impl ticks w).2
        = List.replicate (stepCount (update impl ticks w).2) (Ev.step FIXED_TIMESTEP)
          ++ [Ev.lose, Ev.win]
    ∧ Sprite.win ∈ render (update impl ticks w).1
    ∧ Sprite.loose ∉ render (update impl ticks w).1
    ∧ ∀ v : World, ¬ (Sprite.win ∈ render v ∧ Sprite.loose ∈ render v) := by
  have hge := (one_le_stepCount_iff impl ticks w).mp h
  obtain ⟨hl, hg, hw, -⟩ := update_late_spec impl ticks w hge
  have hend : (update impl ticks w).1.game_end = true := by
    rw [hg, hc]
    simp
  have hwl : (update impl ticks w).1.win_loose = 1 := by
    rw [hw, hc]
    simp
  refine ⟨hend, hwl, ?_, ?_, ?_, ?_⟩
  · rw [loopLog_replicate impl ticks w hge, if_pos hy, hc] at hl
    simpa using hl
  · simp [render, hend, hwl]
  · simp [render, hend, hwl]
  · intro v
    unfold render
    split_ifs <;> simp

/-! ## Concrete calls -/

theorem stepLoop_one (impl : EntityImpl) (delta_time : ℚ) (player hook : Entity)
    (h1 : FIXED_TIMESTEP ≤ delta_time) (h2 : delta_time - FIXED_TIMESTEP < FIXED_TIMESTEP) :
    stepLoop impl delta_time player hook =
      { delta_time := delta_time - FIXED_TIMESTEP
        player := (impl.update player FIXED_TIMESTEP hook PLATFORM_COUNT).1
        hook := (impl.update player FIXED_TIMESTEP hook PLATFORM_COUNT).2
        log := [Ev.step FIXED_TIMESTEP] } := by
  rw [stepLoop_ge impl _ _ h1, stepLoop_lt impl _ _ h2]

theorem update_one_step (impl : EntityImpl) (ticks : ℚ) (w : World)
    (h1 : FIXED_TIMESTEP ≤ ticks - w.g_previous_ticks + w.g_time_accumulator)
    (h2 : ticks - w.g_previous_ticks + w.g_time_accumulator - FIXED_TIMESTEP < FIXED_TIMESTEP) :
    update impl ticks w =
      ((winCheck impl (loseCheck (afterOneStep impl ticks w)).1).1,
       Ev.step FIXED_TIMESTEP :: ((loseCheck (afterOneStep impl ticks w)).2
        ++ (winCheck impl (loseCheck (afterOneStep impl ticks w)).1).2)) := by
  rw [update_late impl ticks w h1]
  unfold loopLog afterLoop afterOneStep
  rw [stepLoop_one impl _ _ _ h1 h2]
  rfl

/-- The first call on `lowWorld`, at clock 1/60: one step, the lose branch,
no collision. -/
theorem lowWorld_first :
    (update specImpl (1 / 60) lowWorld).2 = [Ev.step FIXED_TIMESTEP, Ev.lose]
    ∧ playerY (update specImpl (1 / 60) lowWorld).1 = -3
    ∧ collides specImpl (update specImpl (1 / 60) lowWorld).1 = false
    ∧ (update specImpl (1 / 60) lowWorld).1.game_end = true
    ∧ (update specImpl (1 / 60) lowWorld).1.g_time_accumulator = 0
    ∧ (update specImpl (1 / 60) lowWorld).1.g_previous_ticks = 1 / 60 := by
  rw [update_one_step specImpl (1 / 60) lowWorld
    (by norm_num [lowWorld, worldWith, FIXED_TIMESTEP])
    (by norm_num [lowWorld, worldWith, FIXED_TIMESTEP])]
  simp [afterOneStep, lowWorld, FIXED_TIMESTEP, loseCheck, winCheck, specImpl, Entity.update_spec, Entity.check_collision_spec,
    worldWith, restingEntity, hookInit, Entity.get_position, Entity.get_velocity, LOSE_Y,
    Vec3.zero, Entity.set_velocity, playerY, collides]
  norm_num

/-- The first call on `bothWorld`, at clock 1/60: one step, then both
branches. -/
theorem bothWorld_first :
    (update specImpl (1 / 60) bothWorld).2 = [Ev.step FIXED_TIMESTEP, Ev.lose, Ev.win]
    ∧ playerY (update specImpl (1 / 60) bothWorld).1 = -3
    ∧ collides specImpl (update specImpl (1 / 60) bothWorld).1 = true
    ∧ (update specImpl (1 / 60) bothWorld).1.game_end = true
    ∧ (update specImpl (1 / 60) bothWorld).1.win_loose = 1 := by
  rw [update_one_step specImpl (1 / 60) bothWorld
    (by norm_num [bothWorld, worldWith, FIXED_TIMESTEP])
    (by norm_num [bothWorld, worldWith, FIXED_TIMESTEP])]
  simp [afterOneStep, bothWorld, FIXED_TIMESTEP, loseCheck, winCheck, specImpl, Entity.update_spec, Entity.check_collision_spec,
    worldWith, restingEntity, hookInit, Entity.get_position, Entity.get_velocity, LOSE_Y,
    Vec3.zero, Entity.set_velocity, playerY, collides]
  norm_num

theorem stepCount_lowWorld_first : 1 ≤ stepCount (update specImpl (1 / 60) lowWorld).2 := by
  rw [lowWorld_first.1]
  simp [stepCount]

theorem stepCount_bothWorld_first : 1 ≤ stepCount (update specImpl (1 / 60) bothWorld).2 := by
  rw [bothWorld_first.1]
  simp [stepCount]

theorem playerY_lowWorld_first : playerY (update specImpl (1 / 60) lowWorld).1 < LOSE_Y := by
  rw [lowWorld_first.2.1]
  norm_num [LOSE_Y]

theorem playerY_bothWorld_first : playerY (update specImpl (1 / 60) bothWorld).1 < LOSE_Y := by
  rw [bothWorld_first.2.1]
  norm_num [LOSE_Y]

/-- C3, as stated, fails: from `lowWorld`, two idle frames at clocks 1/60 and
1/30 run one step each, and the lose branch is executed after the first step
and again after the second: twice, not once (`glm::normalize` is never
called, see C6; the identity stands in for it). -/
theorem lose_branch_fires_again :
    (mainLoop specImpl id [Frame.idle (1 / 60), Frame.idle (1 / 30)] lowWorld).2
        = [Ev.step FIXED_TIMESTEP, Ev.lose, Ev.step FIXED_TIMESTEP, Ev.lose]
    ∧ loseCount (mainLoop specImpl id [Frame.idle (1 / 60), Frame.idle (1 / 30)] lowWorld).2
        = 2 := by
  have hlog : (mainLoop specImpl id [Frame.idle (1 / 60), Frame.idle (1 / 30)] lowWorld).2
      = [Ev.step FIXED_TIMESTEP, Ev.lose, Ev.step FIXED_TIMESTEP, Ev.lose] := by
    simp only [mainLoop, frame, process_input_eq_keys, Frame.idle]
    have e1 : update specImpl (1 / 60)
        (process_input_keys [] ⟨false, false, false, false⟩ lowWorld)
        = update specImpl (1 / 60) lowWorld := rfl
    rw [e1]
    rw [update_one_step specImpl (1 / 60) lowWorld
      (by norm_num [lowWorld, worldWith, FIXED_TIMESTEP])
      (by norm_num [lowWorld, worldWith, FIXED_TIMESTEP])]
    simp [afterOneStep, lowWorld, process_input_keys, apply_keys, Entity.set_movement,
      loseCheck, winCheck, specImpl, Entity.update_spec, Entity.check_collision_spec,
    worldWith, restingEntity, hookInit, Entity.get_position, Entity.get_velocity, LOSE_Y,
    Vec3.zero, Entity.set_velocity, playerY, collides]
    norm_num
    rw [update_one_step _ _ _ (by norm_num [FIXED_TIMESTEP]) (by norm_num [FIXED_TIMESTEP])]
    simp [afterOneStep, loseCheck, winCheck, specImpl, Entity.update_spec, Entity.check_collision_spec,
    worldWith, restingEntity, hookInit, Entity.get_position, Entity.get_velocity, LOSE_Y,
    Vec3.zero, Entity.set_velocity, playerY, collides]
    norm_num
  refine ⟨hlog, ?_⟩
  rw [hlog]
  simp [loseCount]

/-- C10 at `bothWorld`: the call at clock 1/60 runs one step, ends with the
player below the threshold and on the hook, and returns the win outcome; the
win overlay is drawn, the lose overlay is not. -/
theorem update_win_overrides_lose_witness :
    1 ≤ stepCount (update specImpl (1 / 60) bothWorld).2
    ∧ playerY (update specImpl (1 / 60) bothWorld).1 < LOSE_Y
    ∧ collides specImpl (update specImpl (1 / 60) bothWorld).1 = true
    ∧ (update specImpl (1 / 60) bothWorld).1.game_end = true
    ∧ (update specImpl (1 / 60) bothWorld).1.win_loose = 1
    ∧ Sprite.win ∈ render (update specImpl (1 / 60) bothWorld).1
    ∧ Sprite.loose ∉ render (update specImpl (1 / 60) bothWorld).1 :=
  ⟨stepCount_bothWorld_first, playerY_bothWorld_first, bothWorld_first.2.2.1,
   (update_win_overrides_lose specImpl (1 / 60) bothWorld stepCount_bothWorld_first
      playerY_bothWorld_first bothWorld_first.2.2.1).1,
   (update_win_overrides_lose specImpl (1 / 60) bothWorld stepCount_bothWorld_first
      playerY_bothWorld_first bothWorld_first.2.2.1).2.1,
   (update_win_overrides_lose specImpl (1 / 60) bothWorld stepCount_bothWorld_first
      playerY_bothWorld_first bothWorld_first.2.2.1).2.2.2.1,
   (update_win_overrides_lose specImpl (1 / 60) bothWorld stepCount_bothWorld_first
      playerY_bothWorld_first bothWorld_first.2.2.1).2.2.2.2.1⟩

/-! ## Theorems: the end conditions with the geometry of the game -/

theorem specImpl_followsSpec : specImpl.FollowsSpec :=
  ⟨rfl, fun _ _ _ _ => ⟨rfl, rfl, rfl, rfl⟩⟩

/-- Under an `Entity.cpp` that follows the spec, the loop of `update` leaves
the hook as it was and keeps the player's scale, width and height. -/
theorem stepLoop_geometry (impl : EntityImpl) (hspec : impl.FollowsSpec) (delta_time : ℚ)
    (player hook : Entity) :
    (stepLoop impl delta_time player hook).hook = hook
    ∧ (stepLoop impl delta_time player hook).player.m_scale = player.m_scale
    ∧ (stepLoop impl delta_time player hook).player.m_height = player.m_height := by
  induction delta_time, player, hook using stepLoop.induct impl with
  | case1 dt p h hge ph ih =>
    obtain ⟨u1, u2, -, u4⟩ := hspec.2 p FIXED_TIMESTEP h PLATFORM_COUNT
    rw [stepLoop_ge impl p h hge]
    obtain ⟨i1, i2, i3⟩ := ih
    exact ⟨i1.trans u1, i2.trans u2, i3.trans u4⟩
  | case2 dt p h hlt =>
    rw [stepLoop_lt impl p h (not_le.mp hlt)]
    exact ⟨rfl, rfl, rfl⟩

theorem loseCheck_geometry (w : World) :
    (loseCheck w).1.g_game_state.hook = w.g_game_state.hook
    ∧ (loseCheck w).1.g_game_state.player.m_scale = w.g_game_state.player.m_scale
    ∧ (loseCheck w).1.g_game_state.player.m_height = w.g_game_state.player.m_height := by
  unfold loseCheck
  split_ifs <;> exact ⟨rfl, rfl, rfl⟩

/-- Under an `Entity.cpp` that follows the spec, a call of `update` leaves the
hook as it was and keeps the player's scale and height. -/
theorem update_geometry (impl : EntityImpl) (hspec : impl.FollowsSpec) (ticks : ℚ)
    (w : World) :
    (update impl ticks w).1.g_game_state.hook = w.g_game_state.hook
    ∧ (update impl ticks w).1.g_game_state.player.m_scale = w.g_game_state.player.m_scale
    ∧ (update impl ticks w).1.g_game_state.player.m_height
        = w.g_game_state.player.m_height := by
  by_cases h : ticks - w.g_previous_ticks + w.g_time_accumulator < FIXED_TIMESTEP
  · rw [update_early impl ticks w h]
    exact ⟨rfl, rfl, rfl⟩
  · rw [update_late impl ticks w (not_lt.mp h)]
    simp only [winCheck_player]
    obtain ⟨l1, l2, l3⟩ := loseCheck_geometry (afterLoop impl ticks w)
    obtain ⟨s1, s2, s3⟩ := stepLoop_geometry impl hspec
      (ticks - w.g_previous_ticks + w.g_time_accumulator)
      w.g_game_state.player w.g_game_state.hook
    exact ⟨l1.trans s1, l2.trans s2, l3.trans s3⟩

/-- A player centred below -2.1 whose box is at most 5.2 high does not
overlap the hook of `initialise`. -/
theorem no_collision_below (player hook : Entity) (hhook : HookAsBuilt hook)
    (hbox : PlayerBoxLow player) (hy : player.get_position.y < LOSE_Y) :
    Entity.check_collision_spec player hook = false := by
  obtain ⟨hp, hs, hw, hh⟩ := hhook
  have hy2 : player.m_position.y < -21 / 10 := hy
  have hb : player.m_scale.y * (player.m_height : ℚ) ≤ 26 / 5 := hbox
  have key : player.m_position.y + player.m_scale.y * (player.m_height : ℚ) * (1 / 2)
      ≤ hook.m_position.y - hook.m_scale.y * (hook.m_height : ℚ) * (1 / 2) := by
    rw [hp, hs, hh]
    norm_num
    linarith
  unfold Entity.check_collision_spec
  simp only [Bool.and_eq_false_iff, decide_eq_false_iff_not]
  right
  exact not_lt.mpr key

/-- C2: for every call of `update` that runs at least one fixed step, from a
state with the hook as `initialise` builds it and the player's box at most
5.2 high (the unit box of the game), under an `Entity.cpp` that follows the
spec: if the player's y afterwards is below -2.1 then `game_end` is true and
`win_loose` is 0 on return; and if the player's `check_collision` with the
hook is true then `game_end` is true and `win_loose` is 1 on return. -/
theorem update_records_lose_and_win (impl : EntityImpl) (hspec : impl.FollowsSpec)
    (ticks : ℚ) (w : World) (hhook : HookAsBuilt w.g_game_state.hook)
    (hbox : PlayerBoxLow w.g_game_state.player)
    (h : 1 ≤ stepCount (update impl ticks w).2) :
    (playerY (update impl ticks w).1 < LOSE_Y →
        (update impl ticks w).1.game_end = true ∧ (update impl ticks w).1.win_loose = 0)
    ∧ (collides impl (update impl ticks w).1 = true →
        (update impl ticks w).1.game_end = true ∧ (update impl ticks w).1.win_loose = 1) := by
  have hge := (one_le_stepCount_iff impl ticks w).mp h
  obtain ⟨-, hg, hw, -⟩ := update_late_spec impl ticks w hge
  obtain ⟨g1, g2, g3⟩ := update_geometry impl hspec ticks w
  refine ⟨fun hy => ?_, fun hc => ⟨?_, ?_⟩⟩
  · have hno : collides impl (update impl ticks w).1 = false := by
      unfold collides
      rw [hspec.1]
      refine no_collision_below _ _ ?_ ?_ hy
      · rw [g1]
        exact hhook
      · unfold PlayerBoxLow
        rw [g2, g3]
        exact hbox
    constructor
    · rw [hg]
      simp [hy]
    · rw [hw, hno]
      simp [hy]
  · rw [hg, hc]
    simp
  · rw [hw, hc]
    simp

theorem hookInit_asBuilt : HookAsBuilt hookInit := ⟨rfl, rfl, rfl, rfl⟩

theorem restingEntity_boxLow (position : Vec3) : PlayerBoxLow (restingEntity position) := by
  unfold PlayerBoxLow restingEntity
  norm_num

/-- C2 at `lowWorld`: the call at clock 1/60 runs one step, the player ends
at y = -3 under the hook of `initialise`, and the lose outcome is returned. -/
theorem update_records_lose_and_win_witness :
    specImpl.FollowsSpec
    ∧ HookAsBuilt lowWorld.g_game_state.hook
    ∧ PlayerBoxLow lowWorld.g_game_state.player
    ∧ 1 ≤ stepCount (update specImpl (1 / 60) lowWorld).2
    ∧ playerY (update specImpl (1 / 60) lowWorld).1 < LOSE_Y
    ∧ (update specImpl (1 / 60) lowWorld).1.game_end = true
    ∧ (update specImpl (1 / 60) lowWorld).1.win_loose = 0 :=
  ⟨specImpl_followsSpec, hookInit_asBuilt, restingEntity_boxLow _, stepCount_lowWorld_first,
   playerY_lowWorld_first,
   ((update_records_lose_and_win specImpl specImpl_followsSpec (1 / 60) lowWorld
      hookInit_asBuilt (restingEntity_boxLow _) stepCount_lowWorld_first).1
      playerY_lowWorld_first).1,
   ((update_records_lose_and_win specImpl specImpl_followsSpec (1 / 60) lowWorld
      hookInit_asBuilt (restingEntity_boxLow _) stepCount_lowWorld_first).1
      playerY_lowWorld_first).2⟩

/-! ## Theorems: binary32 rounding -/

theorem F32.roundHalfEven_of_floor (r : ℚ) (f : ℤ) (hf : ⌊r⌋ = f) :
    F32.roundHalfEven r =
      if r - f < 1 / 2 then f else if 1 / 2 < r - f then f + 1
      else if f % 2 = 0 then f else f + 1 := by
  unfold F32.roundHalfEven
  rw [hf]

/-- Rounding to an integer moves a number by at most one half. -/
theorem F32.roundHalfEven_err (r : ℚ) : |(F32.roundHalfEven r : ℚ) - r| ≤ 1 / 2 := by
  have h1 := Int.floor_le r
  have h2 := Int.lt_floor_add_one r
  unfold F32.roundHalfEven
  split_ifs with a b c
  · rw [abs_le]
    constructor <;> linarith
  · push_cast
    rw [abs_le]
    constructor <;> linarith
  · have : r - ⌊r⌋ = 1 / 2 := le_antisymm (not_lt.mp b) (not_lt.mp a)
    rw [abs_le]
    constructor <;> linarith
  · have : r - ⌊r⌋ = 1 / 2 := le_antisymm (not_lt.mp b) (not_lt.mp a)
    push_cast
    rw [abs_le]
    constructor <;> linarith

theorem F32.roundHalfEven_nonneg (r : ℚ) (h : 0 ≤ r) : 0 ≤ F32.roundHalfEven r := by
  have h1 : 0 ≤ ⌊r⌋ := Int.floor_nonneg.mpr h
  unfold F32.roundHalfEven
  split_ifs <;> omega

theorem F32.two_zpow_pos (z : ℤ) : (0 : ℚ) < 2 ^ z := zpow_pos (by norm_num) z

/-- A rounding moves a number by at most half a unit in the last place. -/
theorem F32.rnd_err (q : ℚ) : |F32.rnd q - q| ≤ 2 ^ F32.ulpExp q / 2 := by
  have hp := F32.two_zpow_pos (F32.ulpExp q)
  have h := F32.roundHalfEven_err (q / 2 ^ F32.ulpExp q)
  unfold F32.rnd
  have e : (F32.roundHalfEven (q / 2 ^ F32.ulpExp q) : ℚ) * 2 ^ F32.ulpExp q - q
      = ((F32.roundHalfEven (q / 2 ^ F32.ulpExp q) : ℚ) - q / 2 ^ F32.ulpExp q)
        * 2 ^ F32.ulpExp q := by
    field_simp
  rw [e, abs_mul, abs_of_pos hp]
  calc _ ≤ 1 / 2 * 2 ^ F32.ulpExp q := mul_le_mul_of_nonneg_right h hp.le
    _ = _ := by ring

theorem F32.rnd_nonneg (q : ℚ) (h : 0 ≤ q) : 0 ≤ F32.rnd q := by
  have hp := F32.two_zpow_pos (F32.ulpExp q)
  unfold F32.rnd
  apply mul_nonneg _ hp.le
  exact_mod_cast F32.roundHalfEven_nonneg _ (div_nonneg h hp.le)

theorem F32.rnd_zero : F32.rnd 0 = 0 := by
  simp [F32.rnd, F32.roundHalfEven]

theorem F32.log_eq (q : ℚ) (e : ℤ) (h1 : 2 ^ e ≤ q) (h2 : q < 2 ^ (e + 1)) :
    Int.log 2 q = e := by
  have hq : 0 < q := lt_of_lt_of_le (F32.two_zpow_pos e) h1
  have a : e ≤ Int.log 2 q :=
    (Int.zpow_le_iff_le_log (by norm_num) hq).mp (by exact_mod_cast h1)
  have b : Int.log 2 q < e + 1 :=
    (Int.lt_zpow_iff_log_lt (by norm_num) hq).mp (by exact_mod_cast h2)
  omega

/-- The error of a rounding is at most `2^-24` of the magnitude, plus `2^-150`. -/
theorem F32.rnd_err_rel (q : ℚ) : |F32.rnd q - q| ≤ F32.slack |q| := by
  unfold F32.slack
  rcases eq_or_ne q 0 with h | h
  · subst h
    rw [F32.rnd_zero]
    norm_num
  · have hq : 0 < |q| := abs_pos.mpr h
    have hl : (2 : ℚ) ^ Int.log 2 |q| ≤ |q| := by
      have := Int.zpow_log_le_self (b := 2) (by norm_num) hq
      exact_mod_cast this
    refine le_trans (F32.rnd_err q) ?_
    unfold F32.ulpExp
    rcases le_total (Int.log 2 |q| - 23) (-149) with c | c
    · rw [max_eq_right c]
      have : (0 : ℚ) ≤ 2 ^ (-24 : ℤ) * |q| := by positivity
      have e : (2 : ℚ) ^ (-149 : ℤ) / 2 = 2 ^ (-150 : ℤ) := by norm_num
      linarith
    · rw [max_eq_left c]
      have e : (2 : ℚ) ^ (Int.log 2 |q| - 23) / 2 = 2 ^ (-24 : ℤ) * 2 ^ Int.log 2 |q| := by
        rw [zpow_sub₀ (by norm_num)]
        norm_num
        ring
      rw [e]
      have : (0 : ℚ) < 2 ^ (-150 : ℤ) := by positivity
      have : (2 : ℚ) ^ (-24 : ℤ) * 2 ^ Int.log 2 |q| ≤ 2 ^ (-24 : ℤ) * |q| :=
        mul_le_mul_of_nonneg_left hl (by positivity)
      linarith

theorem F32.slack_mono {x y : ℚ} (h : x ≤ y) : F32.slack x ≤ F32.slack y := by
  unfold F32.slack
  have : (0 : ℚ) ≤ 2 ^ (-24 : ℤ) := by positivity
  nlinarith

theorem F32.slack_pos {x : ℚ} (h : 0 ≤ x) : 0 < F32.slack x := by
  unfold F32.slack
  have : (0 : ℚ) < 2 ^ (-150 : ℤ) := by positivity
  have : (0 : ℚ) ≤ 2 ^ (-24 : ℤ) * x := by positivity
  linarith

/-- Below `2^19` half a unit in the last place is at most `2^-6`. -/
theorem F32.rnd_err_small (q : ℚ) (h0 : 0 ≤ q) (h : q < 2 ^ (19 : ℕ)) :
    |F32.rnd q - q| ≤ 2 ^ (-6 : ℤ) := by
  rcases eq_or_lt_of_le h0 with h | hq
  · rw [← h, F32.rnd_zero]
    norm_num
  · refine le_trans (F32.rnd_err q) ?_
    have hl : Int.log 2 |q| < 19 := by
      rw [abs_of_pos hq]
      exact (Int.lt_zpow_iff_log_lt (by norm_num) hq).mp (by exact_mod_cast h)
    have hu : F32.ulpExp q ≤ -5 := by
      unfold F32.ulpExp
      omega
    have : (2 : ℚ) ^ F32.ulpExp q ≤ 2 ^ (-5 : ℤ) := zpow_le_zpow_right₀ (by norm_num) hu
    calc (2 : ℚ) ^ F32.ulpExp q / 2 ≤ 2 ^ (-5 : ℤ) / 2 :=
          div_le_div_of_nonneg_right this (by norm_num)
      _ = 2 ^ (-6 : ℤ) := by norm_num

/-- The rounding of a positive number whose binade is known. -/
theorem F32.rnd_eval (q : ℚ) (e : ℤ) (h1 : 2 ^ e ≤ q) (h2 : q < 2 ^ (e + 1)) :
    F32.rnd q
      = (F32.roundHalfEven (q / 2 ^ max (e - 23) (-149)) : ℚ) * 2 ^ max (e - 23) (-149) := by
  have hq : 0 < q := lt_of_lt_of_le (F32.two_zpow_pos e) h1
  unfold F32.rnd F32.ulpExp
  rw [abs_of_pos hq, F32.log_eq q e h1 h2]

/-- The constant `1.0f / 60.0f`. -/
theorem FIXED_TIMESTEP32_eq : FIXED_TIMESTEP32 = 8947849 / 536870912 := by
  unfold FIXED_TIMESTEP32 F32.div
  rw [F32.rnd_eval (1 / 60) (-6) (by norm_num) (by norm_num)]
  rw [F32.roundHalfEven_of_floor _ 8947848 (by rw [Int.floor_eq_iff]; norm_num)]
  norm_num

theorem FIXED_TIMESTEP32_pos : 0 < FIXED_TIMESTEP32 := by
  rw [FIXED_TIMESTEP32_eq]
  norm_num

/-! ## Theorems: the stepping loop in binary32 -/

theorem stepLoop32_lt (impl : EntityImpl) (fuel : Nat) {delta_time : ℚ} (player hook : Entity)
    (h : delta_time < FIXED_TIMESTEP32) :
    stepLoop32 impl fuel delta_time player hook
      = some { delta_time := delta_time, player := player, hook := hook, log := [] } := by
  cases fuel <;> simp [stepLoop32, not_le.mpr h]

theorem stepLoop32_ge (impl : EntityImpl) (fuel : Nat) {delta_time : ℚ} (player hook : Entity)
    (h : FIXED_TIMESTEP32 ≤ delta_time) :
    stepLoop32 impl (fuel + 1) delta_time player hook
      = (stepLoop32 impl fuel (F32.sub delta_time FIXED_TIMESTEP32)
          (impl.update player FIXED_TIMESTEP32 hook PLATFORM_COUNT).1
          (impl.update player FIXED_TIMESTEP32 hook PLATFORM_COUNT).2).map
        (fun r => { r with log := Ev.step FIXED_TIMESTEP32 :: r.log }) := by
  rw [stepLoop32]
  simp only [h, if_true]
  cases stepLoop32 impl fuel (F32.sub delta_time FIXED_TIMESTEP32)
    (impl.update player FIXED_TIMESTEP32 hook PLATFORM_COUNT).1
    (impl.update player FIXED_TIMESTEP32 hook PLATFORM_COUNT).2 <;> rfl

theorem stepLoop32_zero_ge (impl : EntityImpl) {delta_time : ℚ} (player hook : Entity)
    (h : FIXED_TIMESTEP32 ≤ delta_time) :
    stepLoop32 impl 0 delta_time player hook = none := by
  simp [stepLoop32, h]

/-- Whenever the loop returns: what is left is below the timestep, the log is
one step with `FIXED_TIMESTEP` per turn, the entities are those of that many
calls of `Entity::update`, and there is a turn iff the loop started at or
above the timestep. -/
theorem stepLoop32_some (impl : EntityImpl) (fuel : Nat) (delta_time : ℚ)
    (player hook : Entity) (r : LoopState)
    (hr : stepLoop32 impl fuel delta_time player hook = some r) :
    r.delta_time < FIXED_TIMESTEP32
    ∧ r.log = List.replicate r.log.length (Ev.step FIXED_TIMESTEP32)
    ∧ (r.player, r.hook) = applySteps32 impl r.log.length (player, hook)
    ∧ (1 ≤ r.log.length ↔ FIXED_TIMESTEP32 ≤ delta_time) := by
  induction fuel generalizing delta_time player hook r with
  | zero =>
    by_cases h : FIXED_TIMESTEP32 ≤ delta_time
    · rw [stepLoop32_zero_ge impl _ _ h] at hr
      cases hr
    · rw [stepLoop32_lt impl 0 _ _ (not_le.mp h)] at hr
      cases hr
      exact ⟨not_le.mp h, rfl, rfl, by simp [h]⟩
  | succ n ih =>
    by_cases h : FIXED_TIMESTEP32 ≤ delta_time
    · rw [stepLoop32_ge impl n _ _ h] at hr
      rw [Option.map_eq_some'] at hr
      obtain ⟨r', hr', rfl⟩ := hr
      obtain ⟨h1, h2, h3, -⟩ := ih _ _ _ r' hr'
      refine ⟨h1, ?_, ?_, ?_⟩
      · simp only [List.length_cons, List.replicate_succ]
        exact congrArg _ h2
      · simp only [List.length_cons, applySteps32]
        exact h3
      · simp [h]
    · rw [stepLoop32_lt impl _ _ _ (not_le.mp h)] at hr
      cases hr
      exact ⟨not_le.mp h, rfl, rfl, by simp [h]⟩

/-- One turn of the loop below `2^19` takes off more than `2^-10`. -/
theorem F32.sub_timestep_le (x : ℚ) (h1 : FIXED_TIMESTEP32 ≤ x) (h2 : x < 2 ^ (19 : ℕ)) :
    0 ≤ F32.sub x FIXED_TIMESTEP32
    ∧ F32.sub x FIXED_TIMESTEP32 ≤ x - 2 ^ (-10 : ℤ)
    ∧ |F32.sub x FIXED_TIMESTEP32 - (x - FIXED_TIMESTEP32)| ≤ F32.slack x := by
  have hpos := FIXED_TIMESTEP32_pos
  have h0 : 0 ≤ x - FIXED_TIMESTEP32 := by linarith
  have hs := F32.rnd_err_small (x - FIXED_TIMESTEP32) h0 (by linarith)
  have hr := F32.rnd_err_rel (x - FIXED_TIMESTEP32)
  rw [abs_of_nonneg h0] at hr
  refine ⟨F32.rnd_nonneg _ h0, ?_, le_trans hr (F32.slack_mono (by linarith))⟩
  have := (abs_le.mp hs).2
  unfold F32.sub
  rw [FIXED_TIMESTEP32_eq] at this ⊢
  norm_num at this ⊢
  linarith

/-- Below `2^19` the loop returns within `1024 * delta_time` turns, what is
left is not negative, and the time taken off differs from one timestep per
turn by at most one rounding error per turn. -/
theorem stepLoop32_terminates (impl : EntityImpl) (fuel : Nat) (delta_time : ℚ)
    (player hook : Entity) (h19 : delta_time < 2 ^ (19 : ℕ))
    (hfuel : delta_time * 1024 ≤ fuel) :
    ∃ r, stepLoop32 impl fuel delta_time player hook = some r
      ∧ (0 ≤ delta_time → 0 ≤ r.delta_time)
      ∧ |(r.log.length : ℚ) * FIXED_TIMESTEP32 + r.delta_time - delta_time|
          ≤ (r.log.length : ℚ) * F32.slack delta_time := by
  induction fuel generalizing delta_time player hook with
  | zero =>
    have hlt : delta_time < FIXED_TIMESTEP32 := by
      have := FIXED_TIMESTEP32_pos
      simp only [Nat.cast_zero] at hfuel
      linarith
    exact ⟨_, stepLoop32_lt impl 0 _ _ hlt, fun h => h, by simp⟩
  | succ n ih =>
    by_cases h : FIXED_TIMESTEP32 ≤ delta_time
    · obtain ⟨s0, s1, s2⟩ := F32.sub_timestep_le delta_time h h19
      have hx : F32.sub delta_time FIXED_TIMESTEP32 ≤ delta_time := by
        have : (0 : ℚ) < 2 ^ (-10 : ℤ) := by positivity
        linarith
      have hf : F32.sub delta_time FIXED_TIMESTEP32 * 1024 ≤ n := by
        push_cast at hfuel
        have e : (2 : ℚ) ^ (-10 : ℤ) * 1024 = 1 := by norm_num
        nlinarith
      obtain ⟨r, hr, hr0, hrt⟩ := ih (F32.sub delta_time FIXED_TIMESTEP32)
        (impl.update player FIXED_TIMESTEP32 hook PLATFORM_COUNT).1
        (impl.update player FIXED_TIMESTEP32 hook PLATFORM_COUNT).2
        (lt_of_le_of_lt hx h19) hf
      refine ⟨{ r with log := Ev.step FIXED_TIMESTEP32 :: r.log }, ?_, fun _ => hr0 s0, ?_⟩
      · rw [stepLoop32_ge impl n _ _ h, hr]
        rfl
      · simp only [List.length_cons]
        push_cast
        have hm : (r.log.length : ℚ) * F32.slack (F32.sub delta_time FIXED_TIMESTEP32)
            ≤ (r.log.length : ℚ) * F32.slack delta_time :=
          mul_le_mul_of_nonneg_left (F32.slack_mono hx) (by positivity)
        have e : ((r.log.length : ℚ) + 1) * FIXED_TIMESTEP32 + r.delta_time - delta_time
            = ((r.log.length : ℚ) * FIXED_TIMESTEP32 + r.delta_time
                - F32.sub delta_time FIXED_TIMESTEP32)
              + (F32.sub delta_time FIXED_TIMESTEP32 - (delta_time - FIXED_TIMESTEP32)) := by
          ring
        rw [e]
        refine le_trans (abs_add _ _) ?_
        linarith
    · exact ⟨_, stepLoop32_lt impl _ _ _ (not_le.mp h), fun h => h, by simp⟩

/-! ## Theorems: one call of `update` in binary32 -/

theorem update32_early (impl : EntityImpl) (fuel ms : Nat) (w : World)
    (h : pending32 ms w < FIXED_TIMESTEP32) :
    update32 impl fuel ms w =
      some ({ w with g_previous_ticks := clock32 ms,
                     g_time_accumulator := pending32 ms w }, []) := by
  have h2 : F32.add (F32.sub (clock32 ms) w.g_previous_ticks) w.g_time_accumulator
      < FIXED_TIMESTEP32 := h
  unfold update32
  simp only [h2, if_true]
  rfl

theorem update32_late (impl : EntityImpl) (fuel ms : Nat) (w : World)
    (h : FIXED_TIMESTEP32 ≤ pending32 ms w) :
    update32 impl fuel ms w =
      (stepLoop32 impl fuel (pending32 ms w) w.g_game_state.player w.g_game_state.hook).map
        (finish32 impl ms w) := by
  have h2 : ¬ F32.add (F32.sub (clock32 ms) w.g_previous_ticks) w.g_time_accumulator
      < FIXED_TIMESTEP32 := not_lt.mpr h
  unfold update32
  simp only [h2, if_false]
  show (match stepLoop32 impl fuel (pending32 ms w) w.g_game_state.player
      w.g_game_state.hook with
    | none => none
    | some r => some (finish32 impl ms w r)) = _
  cases stepLoop32 impl fuel (pending32 ms w) w.g_game_state.player w.g_game_state.hook <;> rfl

/-- A call of `update` that returns either returned early, with no step, or
ran its loop to the end and made the two end tests. -/
theorem update32_cases (impl : EntityImpl) (fuel ms : Nat) (w : World) (r : World × List Ev)
    (hr : update32 impl fuel ms w = some r) :
    (pending32 ms w < FIXED_TIMESTEP32
      ∧ r = ({ w with g_previous_ticks := clock32 ms,
                      g_time_accumulator := pending32 ms w }, []))
    ∨ (FIXED_TIMESTEP32 ≤ pending32 ms w
      ∧ ∃ lr, stepLoop32 impl fuel (pending32 ms w) w.g_game_state.player
                w.g_game_state.hook = some lr
          ∧ r = finish32 impl ms w lr) := by
  by_cases h : pending32 ms w < FIXED_TIMESTEP32
  · left
    rw [update32_early impl fuel ms w h] at hr
    exact ⟨h, (Option.some.inj hr).symm⟩
  · right
    rw [update32_late impl fuel ms w (not_lt.mp h), Option.map_eq_some'] at hr
    obtain ⟨lr, h1, h2⟩ := hr
    exact ⟨not_lt.mp h, lr, h1, h2.symm⟩

theorem playerY_loseCheck32 (w : World) : playerY (loseCheck32 w).1 = playerY w := by
  unfold loseCheck32
  split_ifs <;> rfl

theorem loseCheck32_log (w : World) : stepCount (loseCheck32 w).2 = 0 := by
  unfold loseCheck32
  split_ifs <;> rfl

theorem loseCheck32_acc (w : World) :
    (loseCheck32 w).1.g_time_accumulator = w.g_time_accumulator
    ∧ (loseCheck32 w).1.g_previous_ticks = w.g_previous_ticks
    ∧ (loseCheck32 w).1.g_game_state.hook = w.g_game_state.hook := by
  unfold loseCheck32
  split_ifs <;> exact ⟨rfl, rfl, rfl⟩

theorem loseCheck32_player (w : World) :
    (loseCheck32 w).1.g_game_state.player = w.g_game_state.player
    ∨ (loseCheck32 w).1.g_game_state.player
        = w.g_game_state.player.set_velocity ⟨0, 0, 0⟩ := by
  unfold loseCheck32
  split_ifs
  · right
    rfl
  · left
    rfl

/-- The two end tests of the binary32 `update` in terms of the world they
return: the log, `game_end` and the player's velocity. -/
theorem endChecks32_spec (impl : EntityImpl) (w : World) :
    (loseCheck32 w).2 ++ (winCheck impl (loseCheck32 w).1).2
        = (if playerY (winCheck impl (loseCheck32 w).1).1 < LOSE_Y32 then [Ev.lose] else [])
          ++ (if collides impl (winCheck impl (loseCheck32 w).1).1 then [Ev.win] else [])
    ∧ (winCheck impl (loseCheck32 w).1).1.game_end
        = (w.game_end || decide (playerY (winCheck impl (loseCheck32 w).1).1 < LOSE_Y32)
            || collides impl (winCheck impl (loseCheck32 w).1).1)
    ∧ (playerY (winCheck impl (loseCheck32 w).1).1 < LOSE_Y32 →
        (winCheck impl (loseCheck32 w).1).1.g_game_state.player.m_velocity = ⟨0, 0, 0⟩) := by
  rw [collides_winCheck, playerY_winCheck, playerY_loseCheck32, winCheck_player]
  by_cases hy : playerY w < LOSE_Y32
  · have hy2 : w.g_game_state.player.get_position.y < LOSE_Y32 := hy
    by_cases hc : collides impl (loseCheck32 w).1 = true
    · have hc2 : impl.check_collision (loseCheck32 w).1.g_game_state.player
          (loseCheck32 w).1.g_game_state.hook = true := hc
      simp only [winCheck, hc2, hc, hy, if_true]
      simp [loseCheck32, hy2, Entity.set_velocity]
    · have hc2 : ¬ impl.check_collision (loseCheck32 w).1.g_game_state.player
          (loseCheck32 w).1.g_game_state.hook = true := hc
      simp only [winCheck, hc2, hc, hy, if_true, if_false]
      simp [loseCheck32, hy2, Entity.set_velocity]
  · have hy2 : ¬ w.g_game_state.player.get_position.y < LOSE_Y32 := hy
    by_cases hc : collides impl (loseCheck32 w).1 = true
    · have hc2 : impl.check_collision (loseCheck32 w).1.g_game_state.player
          (loseCheck32 w).1.g_game_state.hook = true := hc
      simp only [winCheck, hc2, hc, hy, if_true, if_false]
      simp [loseCheck32, hy2]
    · have hc2 : ¬ impl.check_collision (loseCheck32 w).1.g_game_state.player
          (loseCheck32 w).1.g_game_state.hook = true := hc
      simp only [winCheck, hc2, hc, hy, if_false]
      simp [loseCheck32, hy2]

theorem finish32_stepCount (impl : EntityImpl) (ms : Nat) (w : World) (lr : LoopState)
    (hlog : lr.log = List.replicate lr.log.length (Ev.step FIXED_TIMESTEP32)) :
    stepCount (finish32 impl ms w lr).2 = lr.log.length := by
  unfold finish32
  simp only [stepCount_append, loseCheck32_log, winCheck_log, add_zero]
  rw [hlog, stepCount_replicate, List.length_replicate]

theorem finish32_acc (impl : EntityImpl) (ms : Nat) (w : World) (lr : LoopState) :
    (finish32 impl ms w lr).1.g_time_accumulator = lr.delta_time
    ∧ (finish32 impl ms w lr).1.g_previous_ticks = clock32 ms := by
  unfold finish32
  simp only [winCheck_acc, winCheck_ticks, (loseCheck32_acc _).1, (loseCheck32_acc _).2.1]
  exact ⟨rfl, rfl⟩

/-- A call of `update` that returns has run at least one step exactly when
its pending time reached the timestep, whatever `game_end` holds. -/
theorem update32_one_le_stepCount_iff (impl : EntityImpl) (fuel ms : Nat) (w : World)
    (r : World × List Ev) (hr : update32 impl fuel ms w = some r) :
    1 ≤ stepCount r.2 ↔ FIXED_TIMESTEP32 ≤ pending32 ms w := by
  rcases update32_cases impl fuel ms w r hr with ⟨h, rfl⟩ | ⟨h, lr, hl, rfl⟩
  · simp [stepCount, not_le.mpr h]
  · obtain ⟨-, h2, -, h4⟩ := stepLoop32_some impl fuel _ _ _ lr hl
    rw [finish32_stepCount impl ms w lr h2, h4]

/-- No call of `update` clears `game_end`. -/
theorem update32_game_end_stays (impl : EntityImpl) (fuel ms : Nat) (w : World)
    (r : World × List Ev) (hr : update32 impl fuel ms w = some r)
    (h : w.game_end = true) : r.1.game_end = true := by
  rcases update32_cases impl fuel ms w r hr with ⟨-, rfl⟩ | ⟨-, lr, -, rfl⟩
  · exact h
  · unfold finish32
    rw [(endChecks32_spec impl (afterLoop32 ms w lr)).2.1]
    have : (afterLoop32 ms w lr).game_end = true := h
    rw [this]
    simp

theorem process_input_flags (normalize : Vec3 → Vec3) (events : List SDLEvent)
    (keys : KeyState) (w : World) :
    (process_input normalize events keys w).g_time_accumulator = w.g_time_accumulator
    ∧ (process_input normalize events keys w).g_previous_ticks = w.g_previous_ticks
    ∧ (process_input normalize events keys w).game_end = w.game_end := by
  rw [process_input_eq_keys]
  exact ⟨rfl, rfl, rfl⟩

theorem pending32_process_input (normalize : Vec3 → Vec3) (events : List SDLEvent)
    (keys : KeyState) (ms : Nat) (w : World) :
    pending32 ms (process_input normalize events keys w) = pending32 ms w := by
  unfold pending32
  rw [(process_input_flags normalize events keys w).1,
    (process_input_flags normalize events keys w).2.1]

/-- The main loop never clears `game_end`. -/
theorem mainLoop32_game_end_stays (impl : EntityImpl) (normalize : Vec3 → Vec3) (fuel : Nat)
    (frames : List Frame32) (w : World) (r : World × List Ev)
    (hr : mainLoop32 impl normalize fuel frames w = some r)
    (h : w.game_end = true) : r.1.game_end = true := by
  induction frames generalizing w r with
  | nil =>
    simp only [mainLoop32, Option.some.injEq] at hr
    rw [← hr]
    exact h
  | cons f fs ih =>
    unfold mainLoop32 at hr
    by_cases hs : w.g_app_status = AppStatus.RUNNING
    · simp only [hs, if_true] at hr
      cases hu : update32 impl fuel f.ms (process_input normalize f.events f.keys w) with
      | none =>
        rw [hu] at hr
        cases hr
      | some u =>
        rw [hu] at hr
        simp only at hr
        cases hm : mainLoop32 impl normalize fuel fs u.1 with
        | none =>
          rw [hm] at hr
          cases hr
        | some rest =>
          rw [hm] at hr
          simp only [Option.some.injEq] at hr
          rw [← hr]
          refine ih u.1 rest hm ?_
          refine update32_game_end_stays impl fuel f.ms _ u hu ?_
          rw [(process_input_flags normalize f.events f.keys w).2.2]
          exact h
    · simp only [hs, if_false, Option.some.injEq] at hr
      rw [← hr]
      exact h

/-- C4, amended: whenever a call of `update` executes the lose branch, the
player's velocity is the zero vector and `game_end` is true on return;
`game_end` then stays true through every later frame; and `update` never
reads `game_end`: in every later frame the call of `update` still runs
`player->update`, at least one step exactly when its pending time (the clock
gap plus the accumulator, in binary32) reaches `FIXED_TIMESTEP`. -/
theorem update32_lose_zeroes_velocity (impl : EntityImpl) (normalize : Vec3 → Vec3)
    (fuel ms : Nat) (w : World) (r : World × List Ev)
    (hr : update32 impl fuel ms w = some r) (hlose : Ev.lose ∈ r.2) :
    r.1.g_game_state.player.get_velocity = ⟨0, 0, 0⟩
    ∧ r.1.game_end = true
    ∧ ∀ (frames : List Frame32) (fuel₁ : Nat) (v : World × List Ev),
        mainLoop32 impl normalize fuel₁ frames r.1 = some v →
        v.1.game_end = true
        ∧ ∀ (f : Frame32) (fuel₂ : Nat) (r₂ : World × List Ev),
            update32 impl fuel₂ f.ms (process_input normalize f.events f.keys v.1) = some r₂ →
            r₂.1.game_end = true
            ∧ (1 ≤ stepCount r₂.2 ↔ FIXED_TIMESTEP32 ≤ pending32 f.ms v.1) := by
  rcases update32_cases impl fuel ms w r hr with ⟨-, rfl⟩ | ⟨-, lr, hl, rfl⟩
  · simp at hlose
  · obtain ⟨-, h2, -, -⟩ := stepLoop32_some impl fuel _ _ _ lr hl
    obtain ⟨e1, e2, e3⟩ := endChecks32_spec impl (afterLoop32 ms w lr)
    have hy : playerY (finish32 impl ms w lr).1 < LOSE_Y32 := by
      by_contra hn
      have hn2 : ¬ playerY (winCheck impl (loseCheck32 (afterLoop32 ms w lr)).1).1
          < LOSE_Y32 := hn
      unfold finish32 at hlose
      simp only [] at hlose
      rw [List.append_assoc, e1, if_neg hn2, h2] at hlose
      simp only [List.mem_append, List.not_mem_nil, false_or] at hlose
      rcases hlose with hm | hm
      · have := List.eq_of_mem_replicate hm
        cases this
      · split_ifs at hm <;> simp at hm
    have hend : (finish32 impl ms w lr).1.game_end = true := by
      show (winCheck impl (loseCheck32 (afterLoop32 ms w lr)).1).1.game_end = true
      rw [e2]
      have : playerY (winCheck impl (loseCheck32 (afterLoop32 ms w lr)).1).1 < LOSE_Y32 := hy
      simp [this]
    refine ⟨e3 hy, hend, fun frames fuel₁ v hv => ?_⟩
    have hv1 := mainLoop32_game_end_stays impl normalize fuel₁ frames _ v hv hend
    refine ⟨hv1, fun f fuel₂ r₂ h₂ => ⟨?_, ?_⟩⟩
    · refine update32_game_end_stays impl fuel₂ f.ms _ r₂ h₂ ?_
      rw [(process_input_flags normalize f.events f.keys v.1).2.2]
      exact hv1
    · rw [update32_one_le_stepCount_iff impl fuel₂ f.ms _ r₂ h₂, pending32_process_input]

theorem pending32_nonneg (ms : Nat) (w : World) (ha : 0 ≤ w.g_time_accumulator)
    (hd : 0 ≤ clock32 ms - w.g_previous_ticks) : 0 ≤ pending32 ms w := by
  unfold pending32 F32.add F32.sub
  exact F32.rnd_nonneg _ (add_nonneg (F32.rnd_nonneg _ hd) ha)

theorem finish32_entities (impl : EntityImpl) (ms : Nat) (w : World) (lr : LoopState) :
    (finish32 impl ms w lr).1.g_game_state.hook = lr.hook
    ∧ ((finish32 impl ms w lr).1.g_game_state.player = lr.player
      ∨ (finish32 impl ms w lr).1.g_game_state.player = lr.player.set_velocity ⟨0, 0, 0⟩) := by
  unfold finish32
  simp only [winCheck_player]
  exact ⟨(loseCheck32_acc _).2.2, loseCheck32_player _⟩

theorem finish32_steps (impl : EntityImpl) (ms : Nat) (w : World) (lr : LoopState)
    (hlog : lr.log = List.replicate lr.log.length (Ev.step FIXED_TIMESTEP32)) (dt : ℚ)
    (hm : Ev.step dt ∈ (finish32 impl ms w lr).2) : dt = FIXED_TIMESTEP32 := by
  unfold finish32 at hm
  simp only [List.mem_append] at hm
  rcases hm with (hm | hm) | hm
  · rw [hlog] at hm
    have := List.eq_of_mem_replicate hm
    injection this
  · unfold loseCheck32 at hm
    split_ifs at hm <;> simp at hm
  · unfold winCheck at hm
    split_ifs at hm <;> simp at hm

/-- C9, amended: in binary32, with prior accumulator `a ≥ 0`, clock gap `d ≥
0` and pending time `p = fl(fl(d) + a)` below `2^19` seconds, the loop of
`update` terminates (within `1024 * p` turns), every step is given the
binary32 `FIXED_TIMESTEP`, `g_time_accumulator` is left in `[0,
FIXED_TIMESTEP)`, the number `n` of steps satisfies `n * FIXED_TIMESTEP ≤ p +
n * s` and `p - n * s < (n + 1) * FIXED_TIMESTEP` with `s = 2^-24 * p +
2^-150` the rounding error of one subtraction, and the entities on return
are those of `n` successive calls of `Entity::update` (the player's velocity
zeroed if the lose branch ran). -/
theorem update32_step_count (impl : EntityImpl) (fuel ms : Nat) (w : World)
    (ha : 0 ≤ w.g_time_accumulator) (hd : 0 ≤ clock32 ms - w.g_previous_ticks)
    (hp : pending32 ms w < 2 ^ (19 : ℕ)) (hfuel : pending32 ms w * 1024 ≤ fuel) :
    ∃ r, update32 impl fuel ms w = some r
      ∧ (∀ dt : ℚ, Ev.step dt ∈ r.2 → dt = FIXED_TIMESTEP32)
      ∧ 0 ≤ r.1.g_time_accumulator
      ∧ r.1.g_time_accumulator < FIXED_TIMESTEP32
      ∧ (stepCount r.2 : ℚ) * FIXED_TIMESTEP32
          ≤ pending32 ms w + (stepCount r.2 : ℚ) * F32.slack (pending32 ms w)
      ∧ pending32 ms w - (stepCount r.2 : ℚ) * F32.slack (pending32 ms w)
          < ((stepCount r.2 : ℚ) + 1) * FIXED_TIMESTEP32
      ∧ r.1.g_game_state.hook
          = (applySteps32 impl (stepCount r.2) (w.g_game_state.player, w.g_game_state.hook)).2
      ∧ (r.1.g_game_state.player
            = (applySteps32 impl (stepCount r.2)
                (w.g_game_state.player, w.g_game_state.hook)).1
          ∨ r.1.g_game_state.player
            = (applySteps32 impl (stepCount r.2)
                (w.g_game_state.player, w.g_game_state.hook)).1.set_velocity ⟨0, 0, 0⟩) := by
  have hp0 := pending32_nonneg ms w ha hd
  by_cases h : pending32 ms w < FIXED_TIMESTEP32
  · refine ⟨_, update32_early impl fuel ms w h, ?_, hp0, h, ?_, ?_, rfl, Or.inl rfl⟩
    · intro dt hm
      simp at hm
    · simpa [stepCount] using hp0
    · simpa [stepCount] using h
  · have hge := not_lt.mp h
    obtain ⟨lr, hl, h0, ht⟩ := stepLoop32_terminates impl fuel (pending32 ms w)
      w.g_game_state.player w.g_game_state.hook hp hfuel
    obtain ⟨s1, s2, s3, -⟩ := stepLoop32_some impl fuel _ _ _ lr hl
    have hn := finish32_stepCount impl ms w lr s2
    have hacc := (finish32_acc impl ms w lr).1
    have hent := finish32_entities impl ms w lr
    have hb := abs_le.mp ht
    have e1 : lr.hook = (applySteps32 impl lr.log.length
        (w.g_game_state.player, w.g_game_state.hook)).2 := congrArg Prod.snd s3
    have e2 : lr.player = (applySteps32 impl lr.log.length
        (w.g_game_state.player, w.g_game_state.hook)).1 := congrArg Prod.fst s3
    refine ⟨finish32 impl ms w lr, ?_, fun dt hm => finish32_steps impl ms w lr s2 dt hm,
      ?_, ?_, ?_, ?_, ?_, ?_⟩
    · rw [update32_late impl fuel ms w hge, hl]
      rfl
    · rw [hacc]
      exact h0 hp0
    · rw [hacc]
      exact s1
    · rw [hn]
      have := h0 hp0
      linarith [hb.2]
    · rw [hn]
      linarith [hb.1]
    · rw [hn, hent.1, e1]
    · rw [hn, ← e2]
      exact hent.2

/-- One call of `update` in binary32 with accumulator in `[0, 1]` and clock
gap in `[0, B]`, `B < 2^18`: it returns, the accumulator stays in `[0, 1]`,
and the time simulated plus the time kept differs from the time received by
at most `n + 2` rounding errors. -/
theorem update32_call_bound (impl : EntityImpl) (B : ℚ) (fuel : Nat)
    (hB : B < 2 ^ (18 : ℕ)) (hfuel : (B + 2) * 1024 ≤ fuel) (ms : Nat) (w : World)
    (ha0 : 0 ≤ w.g_time_accumulator) (ha1 : w.g_time_accumulator ≤ 1)
    (hd0 : 0 ≤ clock32 ms - w.g_previous_ticks) (hdB : clock32 ms - w.g_previous_ticks ≤ B) :
    ∃ r, update32 impl fuel ms w = some r
      ∧ 0 ≤ r.1.g_time_accumulator ∧ r.1.g_time_accumulator ≤ 1
      ∧ r.1.g_previous_ticks = clock32 ms
      ∧ |(stepCount r.2 : ℚ) * FIXED_TIMESTEP32 + r.1.g_time_accumulator
            - (w.g_time_accumulator + (clock32 ms - w.g_previous_ticks))|
          ≤ ((stepCount r.2 : ℚ) + 2) * F32.slack (B + 2) := by
  have hB0 : 0 ≤ B := le_trans hd0 hdB
  have hFT : FIXED_TIMESTEP32 < 1 := by
    rw [FIXED_TIMESTEP32_eq]
    norm_num
  -- the two roundings that produce the pending time
  have r1 := F32.rnd_err_rel (clock32 ms - w.g_previous_ticks)
  rw [abs_of_nonneg hd0] at r1
  have r1' : |F32.sub (clock32 ms) w.g_previous_ticks - (clock32 ms - w.g_previous_ticks)|
      ≤ F32.slack (B + 2) := le_trans r1 (F32.slack_mono (by linarith))
  have s18 : F32.slack (B + 2) ≤ 1 / 32 := by
    unfold F32.slack
    have h1 : (2 : ℚ) ^ (-24 : ℤ) * (B + 2) ≤ 2 ^ (-24 : ℤ) * (2 ^ (18 : ℕ) + 2) :=
      mul_le_mul_of_nonneg_left (by linarith) (by positivity)
    have h2 : (2 : ℚ) ^ (-24 : ℤ) * (2 ^ (18 : ℕ) + 2) + 2 ^ (-150 : ℤ) ≤ 1 / 32 := by
      norm_num
    exact le_trans (add_le_add_right h1 _) h2
  have e0 : 0 ≤ F32.sub (clock32 ms) w.g_previous_ticks := F32.rnd_nonneg _ hd0
  have e1 : F32.sub (clock32 ms) w.g_previous_ticks ≤ B + 1 / 32 := by
    have := (abs_le.mp r1').2
    linarith
  have r2 := F32.rnd_err_rel (F32.sub (clock32 ms) w.g_previous_ticks + w.g_time_accumulator)
  rw [abs_of_nonneg (add_nonneg e0 ha0)] at r2
  have r2' : |pending32 ms w
      - (F32.sub (clock32 ms) w.g_previous_ticks + w.g_time_accumulator)|
      ≤ F32.slack (B + 2) := le_trans r2 (F32.slack_mono (by linarith))
  have hp0 : 0 ≤ pending32 ms w := pending32_nonneg ms w ha0 hd0
  have hpB : pending32 ms w ≤ B + 2 := by
    have := (abs_le.mp r2').2
    linarith
  have hpd : |pending32 ms w - (w.g_time_accumulator + (clock32 ms - w.g_previous_ticks))|
      ≤ 2 * F32.slack (B + 2) := by
    have e : pending32 ms w - (w.g_time_accumulator + (clock32 ms - w.g_previous_ticks))
        = (pending32 ms w
            - (F32.sub (clock32 ms) w.g_previous_ticks + w.g_time_accumulator))
          + (F32.sub (clock32 ms) w.g_previous_ticks - (clock32 ms - w.g_previous_ticks)) := by
      ring
    rw [e]
    refine le_trans (abs_add _ _) ?_
    linarith
  by_cases h : pending32 ms w < FIXED_TIMESTEP32
  · refine ⟨_, update32_early impl fuel ms w h, hp0, by linarith, rfl, ?_⟩
    simpa [stepCount] using hpd
  · have hge := not_lt.mp h
    obtain ⟨lr, hl, h0, ht⟩ := stepLoop32_terminates impl fuel (pending32 ms w)
      w.g_game_state.player w.g_game_state.hook (by norm_num at hB ⊢; linarith)
      (le_trans (by linarith) hfuel)
    obtain ⟨s1, s2, -, -⟩ := stepLoop32_some impl fuel _ _ _ lr hl
    have hn := finish32_stepCount impl ms w lr s2
    obtain ⟨hacc, hprev⟩ := finish32_acc impl ms w lr
    refine ⟨finish32 impl ms w lr, ?_, ?_, ?_, hprev, ?_⟩
    · rw [update32_late impl fuel ms w hge, hl]
      rfl
    · rw [hacc]
      exact h0 hp0
    · rw [hacc]
      linarith
    · rw [hn, hacc]
      have hm : (lr.log.length : ℚ) * F32.slack (pending32 ms w)
          ≤ (lr.log.length : ℚ) * F32.slack (B + 2) :=
        mul_le_mul_of_nonneg_left (F32.slack_mono hpB) (by positivity)
      have e : (lr.log.length : ℚ) * FIXED_TIMESTEP32 + lr.delta_time
            - (w.g_time_accumulator + (clock32 ms - w.g_previous_ticks))
          = ((lr.log.length : ℚ) * FIXED_TIMESTEP32 + lr.delta_time - pending32 ms w)
            + (pending32 ms w
                - (w.g_time_accumulator + (clock32 ms - w.g_previous_ticks))) := by
        ring
      rw [e]
      refine le_trans (abs_add _ _) ?_
      linarith

/-- The main loop in binary32 over frames whose clock gaps are each in `[0,
B]`, `B < 2^18`, from an accumulator in `[0, 1]`: every call returns, and the
time simulated plus the time kept differs from the time received by at most
one rounding error per step and two per frame. -/
theorem mainLoop32_bound (impl : EntityImpl) (normalize : Vec3 → Vec3) (B : ℚ) (fuel : Nat)
    (hB : B < 2 ^ (18 : ℕ)) (hfuel : (B + 2) * 1024 ≤ fuel) (frames : List Frame32)
    (w : World) (ha0 : 0 ≤ w.g_time_accumulator) (ha1 : w.g_time_accumulator ≤ 1)
    (hgaps : List.Chain (fun s t : ℚ => s ≤ t ∧ t - s ≤ B) w.g_previous_ticks
      (frames.map (fun f => clock32 f.ms))) :
    ∃ v, mainLoop32 impl normalize fuel frames w = some v
      ∧ |(stepCount v.2 : ℚ) * FIXED_TIMESTEP32 + v.1.g_time_accumulator
            - (w.g_time_accumulator + (v.1.g_previous_ticks - w.g_previous_ticks))|
          ≤ ((stepCount v.2 : ℚ) + 2 * (frames.length : ℚ)) * F32.slack (B + 2) := by
  induction frames generalizing w with
  | nil =>
    refine ⟨(w, []), rfl, ?_⟩
    simp [stepCount]
  | cons f fs ih =>
    simp only [List.map_cons, List.chain_cons] at hgaps
    obtain ⟨⟨g0, gB⟩, hrest⟩ := hgaps
    have hs0 : 0 < F32.slack (B + 2) := F32.slack_pos (by linarith)
    unfold mainLoop32
    by_cases hs : w.g_app_status = AppStatus.RUNNING
    · simp only [hs, if_true]
      obtain ⟨p1, p2, -⟩ := process_input_flags normalize f.events f.keys w
      obtain ⟨u, hu, u0, u1, uprev, ub⟩ := update32_call_bound impl B fuel hB hfuel f.ms
        (process_input normalize f.events f.keys w) (by rw [p1]; exact ha0)
        (by rw [p1]; exact ha1) (by rw [p2]; linarith) (by rw [p2]; linarith)
      rw [p1, p2] at ub
      obtain ⟨v, hv, vb⟩ := ih u.1 u0 u1 (by rw [uprev]; exact hrest)
      refine ⟨(v.1, u.2 ++ v.2), ?_, ?_⟩
      · rw [hu]
        simp only [hv]
      · simp only [stepCount_append, List.length_cons]
        push_cast
        have e : ((stepCount u.2 : ℚ) + (stepCount v.2 : ℚ)) * FIXED_TIMESTEP32
              + v.1.g_time_accumulator
              - (w.g_time_accumulator + (v.1.g_previous_ticks - w.g_previous_ticks))
            = ((stepCount u.2 : ℚ) * FIXED_TIMESTEP32 + u.1.g_time_accumulator
                - (w.g_time_accumulator + (clock32 f.ms - w.g_previous_ticks)))
              + ((stepCount v.2 : ℚ) * FIXED_TIMESTEP32 + v.1.g_time_accumulator
                - (u.1.g_time_accumulator + (v.1.g_previous_ticks - u.1.g_previous_ticks))) := by
          rw [uprev]
          ring
        rw [e]
        refine le_trans (abs_add _ _) ?_
        nlinarith
    · simp only [hs, if_false]
      refine ⟨(w, []), rfl, ?_⟩
      simp only [stepCount, List.filter_nil, List.length_nil, Nat.cast_zero, zero_mul,
        zero_add, sub_self, add_zero, abs_zero, List.length_cons]
      positivity

/-- C1, amended: in binary32 the identity holds up to rounding.  A call of
`update` with prior accumulator `a` in `[0, 1]` and clock gap `d` in `[0, B]`,
`B < 2^18` seconds, returns, and with `n` steps run and `a'` stored, `|n *
FIXED_TIMESTEP + a' - (a + d)| ≤ (n + 2) * (2^-24 * (B + 2) + 2^-150)`; hence
over any sequence of frames whose gaps are each in `[0, B]`, the total of the
steps times `FIXED_TIMESTEP` plus the final accumulator differs from the
initial accumulator plus the total elapsed time by at most `(N + 2 * frames)
* (2^-24 * (B + 2) + 2^-150)`. -/
theorem update32_time_up_to_rounding (impl : EntityImpl) (normalize : Vec3 → Vec3) (B : ℚ)
    (fuel : Nat) (hB : B < 2 ^ (18 : ℕ)) (hfuel : (B + 2) * 1024 ≤ fuel) :
    (∀ (ms : Nat) (w : World),
      0 ≤ w.g_time_accumulator → w.g_time_accumulator ≤ 1 →
      0 ≤ clock32 ms - w.g_previous_ticks → clock32 ms - w.g_previous_ticks ≤ B →
      ∃ r, update32 impl fuel ms w = some r
        ∧ |(stepCount r.2 : ℚ) * FIXED_TIMESTEP32 + r.1.g_time_accumulator
              - (w.g_time_accumulator + (clock32 ms - w.g_previous_ticks))|
            ≤ ((stepCount r.2 : ℚ) + 2) * (2 ^ (-24 : ℤ) * (B + 2) + 2 ^ (-150 : ℤ)))
    ∧ (∀ (frames : List Frame32) (w : World),
      0 ≤ w.g_time_accumulator → w.g_time_accumulator ≤ 1 →
      List.Chain (fun s t : ℚ => s ≤ t ∧ t - s ≤ B) w.g_previous_ticks
        (frames.map (fun f => clock32 f.ms)) →
      ∃ v, mainLoop32 impl normalize fuel frames w = some v
        ∧ |(stepCount v.2 : ℚ) * FIXED_TIMESTEP32 + v.1.g_time_accumulator
              - (w.g_time_accumulator + (v.1.g_previous_ticks - w.g_previous_ticks))|
            ≤ ((stepCount v.2 : ℚ) + 2 * (frames.length : ℚ))
                * (2 ^ (-24 : ℤ) * (B + 2) + 2 ^ (-150 : ℤ))) := by
  constructor
  · intro ms w ha0 ha1 hd0 hdB
    obtain ⟨r, hr, -, -, -, hb⟩ := update32_call_bound impl B fuel hB hfuel ms w ha0 ha1 hd0 hdB
    exact ⟨r, hr, hb⟩
  · intro frames w ha0 ha1 hgaps
    exact mainLoop32_bound impl normalize B fuel hB hfuel frames w ha0 ha1 hgaps

/-! ## Theorems: concrete roundings -/

theorem F32.roundHalfEven_intCast (k : ℤ) : F32.roundHalfEven (k : ℚ) = k := by
  rw [F32.roundHalfEven_of_floor _ k (Int.floor_intCast k)]
  simp

/-- A positive number on the grid of its binade is its own rounding. -/
theorem F32.rnd_exact (q : ℚ) (e k : ℤ) (h1 : 2 ^ e ≤ q) (h2 : q < 2 ^ (e + 1))
    (hk : q / 2 ^ max (e - 23) (-149) = k) : F32.rnd q = q := by
  rw [F32.rnd_eval q e h1 h2, hk, F32.roundHalfEven_intCast, ← hk]
  have := F32.two_zpow_pos (max (e - 23) (-149))
  field_simp

/-- The rounding of a negative number whose binade is known. -/
theorem F32.rnd_eval_neg (q : ℚ) (e : ℤ) (h1 : 2 ^ e ≤ -q) (h2 : -q < 2 ^ (e + 1)) :
    F32.rnd q
      = (F32.roundHalfEven (q / 2 ^ max (e - 23) (-149)) : ℚ) * 2 ^ max (e - 23) (-149) := by
  have hq : 0 < -q := lt_of_lt_of_le (F32.two_zpow_pos e) h1
  unfold F32.rnd F32.ulpExp
  rw [abs_of_neg (by linarith), F32.log_eq (-q) e h1 h2]

/-- The literal `-2.1f`. -/
theorem LOSE_Y32_eq : LOSE_Y32 = -4404019 / 2097152 := by
  unfold LOSE_Y32
  rw [F32.rnd_eval_neg (-21 / 10) 1 (by norm_num) (by norm_num)]
  rw [F32.roundHalfEven_of_floor _ (-8808039) (by rw [Int.floor_eq_iff]; norm_num)]
  norm_num

/-- The clock reads 0.05f at 50 ms. -/
theorem clock32_50 : clock32 50 = 13421773 / 268435456 := by
  unfold clock32 F32.div F32.ofNat MILLISECONDS_IN_SECOND
  rw [show ((50 : ℕ) : ℚ) = 50 by norm_num]
  rw [F32.rnd_exact 50 5 13107200 (by norm_num) (by norm_num) (by norm_num)]
  rw [F32.rnd_eval (50 / 1000) (-5) (by norm_num) (by norm_num)]
  rw [F32.roundHalfEven_of_floor _ 13421772 (by rw [Int.floor_eq_iff]; norm_num)]
  norm_num

/-- The clock reads 0.1f at 100 ms. -/
theorem clock32_100 : clock32 100 = 13421773 / 134217728 := by
  unfold clock32 F32.div F32.ofNat MILLISECONDS_IN_SECOND
  rw [show ((100 : ℕ) : ℚ) = 100 by norm_num]
  rw [F32.rnd_exact 100 6 13107200 (by norm_num) (by norm_num) (by norm_num)]
  rw [F32.rnd_eval (100 / 1000) (-4) (by norm_num) (by norm_num)]
  rw [F32.roundHalfEven_of_floor _ 13421772 (by rw [Int.floor_eq_iff]; norm_num)]
  norm_num

/-- The clock reads 600000.0f at 600000000 ms. -/
theorem clock32_600000000 : clock32 600000000 = 600000 := by
  unfold clock32 F32.div F32.ofNat MILLISECONDS_IN_SECOND
  rw [show ((600000000 : ℕ) : ℚ) = 600000000 by norm_num]
  rw [F32.rnd_exact 600000000 29 9375000 (by norm_num) (by norm_num) (by norm_num)]
  rw [show (600000000 : ℚ) / 1000 = 600000 by norm_num]
  exact F32.rnd_exact 600000 19 9600000 (by norm_num) (by norm_num) (by norm_num)

/-- The first subtraction from 0.05f is a tie and rounds to even. -/
theorem sub32_first : F32.sub (13421773 / 268435456) FIXED_TIMESTEP32 = 2236962 / 67108864 := by
  unfold F32.sub
  rw [FIXED_TIMESTEP32_eq]
  rw [F32.rnd_eval _ (-5) (by norm_num) (by norm_num)]
  rw [F32.roundHalfEven_of_floor _ 8947848 (by rw [Int.floor_eq_iff]; norm_num)]
  norm_num

/-- The second subtraction is exact and leaves less than a timestep. -/
theorem sub32_second :
    F32.sub (2236962 / 67108864) FIXED_TIMESTEP32 = 8947847 / 536870912 := by
  unfold F32.sub
  rw [FIXED_TIMESTEP32_eq]
  rw [show (2236962 / 67108864 : ℚ) - 8947849 / 536870912 = 8947847 / 536870912 by norm_num]
  exact F32.rnd_exact _ (-6) 8947847 (by norm_num) (by norm_num) (by norm_num)

/-- At 600000 s a timestep is less than half the spacing of binary32: the
subtraction gives back its first operand. -/
theorem sub32_absorbed : F32.sub 600000 FIXED_TIMESTEP32 = 600000 := by
  unfold F32.sub
  rw [FIXED_TIMESTEP32_eq]
  rw [F32.rnd_eval _ 19 (by norm_num) (by norm_num)]
  rw [F32.roundHalfEven_of_floor _ 9599999 (by rw [Int.floor_eq_iff]; norm_num)]
  norm_num

theorem F32.rnd_grid_0_05 : F32.rnd (13421773 / 268435456) = 13421773 / 268435456 :=
  F32.rnd_exact _ (-5) 13421773 (by norm_num) (by norm_num) (by norm_num)

/-- From clock 0 and an empty accumulator, the pending time at 50 ms is 0.05f. -/
theorem pending32_50 (w : World) (h1 : w.g_previous_ticks = 0) (h2 : w.g_time_accumulator = 0) :
    pending32 50 w = 13421773 / 268435456 := by
  unfold pending32 F32.add F32.sub
  rw [h1, h2, clock32_50, sub_zero, F32.rnd_grid_0_05, add_zero, F32.rnd_grid_0_05]

/-- From clock 0 and an empty accumulator, the pending time at 600000000 ms
is 600000 s. -/
theorem pending32_600000000 (w : World) (h1 : w.g_previous_ticks = 0)
    (h2 : w.g_time_accumulator = 0) : pending32 600000000 w = 600000 := by
  have e : F32.rnd 600000 = 600000 :=
    F32.rnd_exact 600000 19 9600000 (by norm_num) (by norm_num) (by norm_num)
  unfold pending32 F32.add F32.sub
  rw [h1, h2, clock32_600000000, sub_zero, e, add_zero, e]

/-- From 600000 s the loop never returns, whatever the bound on its turns. -/
theorem stepLoop32_stuck (impl : EntityImpl) (fuel : Nat) (player hook : Entity) :
    stepLoop32 impl fuel 600000 player hook = none := by
  have hge : FIXED_TIMESTEP32 ≤ 600000 := by
    rw [FIXED_TIMESTEP32_eq]
    norm_num
  induction fuel generalizing player hook with
  | zero => exact stepLoop32_zero_ge impl _ _ hge
  | succ n ih =>
    rw [stepLoop32_ge impl n _ _ hge, sub32_absorbed, ih]
    rfl

/-- From 0.05f the loop runs two turns and leaves `8947847 / 2^29`. -/
theorem stepLoop32_0_05 (impl : EntityImpl) (fuel : Nat) (player hook : Entity) :
    stepLoop32 impl (fuel + 2) (13421773 / 268435456) player hook
      = some { delta_time := 8947847 / 536870912
               player := (applySteps32 impl 2 (player, hook)).1
               hook := (applySteps32 impl 2 (player, hook)).2
               log := [Ev.step FIXED_TIMESTEP32, Ev.step FIXED_TIMESTEP32] } := by
  have h1 : FIXED_TIMESTEP32 ≤ 13421773 / 268435456 := by
    rw [FIXED_TIMESTEP32_eq]
    norm_num
  have h2 : FIXED_TIMESTEP32 ≤ 2236962 / 67108864 := by
    rw [FIXED_TIMESTEP32_eq]
    norm_num
  have h3 : (8947847 / 536870912 : ℚ) < FIXED_TIMESTEP32 := by
    rw [FIXED_TIMESTEP32_eq]
    norm_num
  rw [stepLoop32_ge impl (fuel + 1) _ _ h1, sub32_first, stepLoop32_ge impl fuel _ _ h2,
    sub32_second, stepLoop32_lt impl fuel _ _ h3]
  rfl

/-! ## Theorems: concrete calls in binary32 -/

/-- From clock 0 and an empty accumulator, the call at 50 ms runs two steps
and keeps `8947847 / 2^29`. -/
theorem update32_at_50 (impl : EntityImpl) (fuel : Nat) (w : World)
    (h1 : w.g_previous_ticks = 0) (h2 : w.g_time_accumulator = 0) :
    update32 impl (fuel + 2) 50 w
      = some (finish32 impl 50 w
          { delta_time := 8947847 / 536870912
            player := (applySteps32 impl 2 (w.g_game_state.player, w.g_game_state.hook)).1
            hook := (applySteps32 impl 2 (w.g_game_state.player, w.g_game_state.hook)).2
            log := [Ev.step FIXED_TIMESTEP32, Ev.step FIXED_TIMESTEP32] }) := by
  have hp := pending32_50 w h1 h2
  have hge : FIXED_TIMESTEP32 ≤ pending32 50 w := by
    rw [hp, FIXED_TIMESTEP32_eq]
    norm_num
  rw [update32_late impl (fuel + 2) 50 w hge, hp, stepLoop32_0_05]
  rfl

/-- From clock 0 and an empty accumulator, the call at 600000000 ms never
returns. -/
theorem update32_at_600000000 (impl : EntityImpl) (fuel : Nat) (w : World)
    (h1 : w.g_previous_ticks = 0) (h2 : w.g_time_accumulator = 0) :
    update32 impl fuel 600000000 w = none := by
  have hp := pending32_600000000 w h1 h2
  have hge : FIXED_TIMESTEP32 ≤ pending32 600000000 w := by
    rw [hp, FIXED_TIMESTEP32_eq]
    norm_num
  rw [update32_late impl fuel 600000000 w hge, hp, stepLoop32_stuck]
  rfl

theorem update32_at_50_count (impl : EntityImpl) (fuel : Nat) (w : World)
    (h1 : w.g_previous_ticks = 0) (h2 : w.g_time_accumulator = 0) :
    ∃ r, update32 impl (fuel + 2) 50 w = some r ∧ stepCount r.2 = 2
      ∧ r.1.g_time_accumulator = 8947847 / 536870912
      ∧ r.1.g_previous_ticks = 13421773 / 268435456 := by
  refine ⟨_, update32_at_50 impl fuel w h1 h2, ?_, ?_, ?_⟩
  · rw [finish32_stepCount _ _ _ _ rfl]
    rfl
  · rw [(finish32_acc _ _ _ _).1]
  · rw [(finish32_acc _ _ _ _).2, clock32_50]

/-- C1, as stated, fails: from clock 0 and an empty accumulator the call at 50
ms sees the gap 0.05f, runs 2 steps and stores `8947847 / 2^29`; twice the
timestep plus that is not the gap, whether the timestep is the binary32
constant or 1/60 and whether the gap is the float gap or 1/20. -/
theorem time_not_conserved_in_binary32 :
    lowWorld.g_time_accumulator = 0
    ∧ clock32 50 - lowWorld.g_previous_ticks = 13421773 / 268435456
    ∧ ∃ r, update32 specImpl 2 50 lowWorld = some r
      ∧ stepCount r.2 = 2
      ∧ r.1.g_time_accumulator = 8947847 / 536870912
      ∧ (stepCount r.2 : ℚ) * FIXED_TIMESTEP32 + r.1.g_time_accumulator
          ≠ lowWorld.g_time_accumulator + (clock32 50 - lowWorld.g_previous_ticks)
      ∧ (stepCount r.2 : ℚ) * FIXED_TIMESTEP + r.1.g_time_accumulator
          ≠ lowWorld.g_time_accumulator + (clock32 50 - lowWorld.g_previous_ticks)
      ∧ (stepCount r.2 : ℚ) * FIXED_TIMESTEP32 + r.1.g_time_accumulator
          ≠ lowWorld.g_time_accumulator + 1 / 20
      ∧ (stepCount r.2 : ℚ) * FIXED_TIMESTEP + r.1.g_time_accumulator
          ≠ lowWorld.g_time_accumulator + 1 / 20 := by
  have hc : clock32 50 - lowWorld.g_previous_ticks = 13421773 / 268435456 := by
    rw [clock32_50]
    show (13421773 / 268435456 : ℚ) - 0 = _
    norm_num
  obtain ⟨r, hr, hn, ha, -⟩ := update32_at_50_count specImpl 0 lowWorld rfl rfl
  refine ⟨rfl, hc, r, hr, hn, ha, ?_, ?_, ?_, ?_⟩
  all_goals
    rw [hn, ha]
    try rw [hc]
    show _ ≠ (0 : ℚ) + _
    norm_num [FIXED_TIMESTEP32_eq, FIXED_TIMESTEP]

/-- C1, amended, at 50 ms from clock 0 and an empty accumulator, with gaps
bounded by 1/10. -/
theorem update32_time_up_to_rounding_witness :
    (1 / 10 : ℚ) < 2 ^ (18 : ℕ)
    ∧ ((1 / 10 : ℚ) + 2) * 1024 ≤ ((2151 : ℕ) : ℚ)
    ∧ 0 ≤ lowWorld.g_time_accumulator ∧ lowWorld.g_time_accumulator ≤ 1
    ∧ 0 ≤ clock32 50 - lowWorld.g_previous_ticks
    ∧ clock32 50 - lowWorld.g_previous_ticks ≤ 1 / 10
    ∧ ∃ r, update32 specImpl 2151 50 lowWorld = some r
        ∧ |(stepCount r.2 : ℚ) * FIXED_TIMESTEP32 + r.1.g_time_accumulator
              - (lowWorld.g_time_accumulator + (clock32 50 - lowWorld.g_previous_ticks))|
            ≤ ((stepCount r.2 : ℚ) + 2) * (2 ^ (-24 : ℤ) * (1 / 10 + 2) + 2 ^ (-150 : ℤ)) :=
  have hc : clock32 50 - lowWorld.g_previous_ticks = 13421773 / 268435456 := by
    rw [clock32_50]
    show (13421773 / 268435456 : ℚ) - 0 = _
    norm_num
  ⟨by norm_num, by norm_num, le_refl _, zero_le_one, by rw [hc]; norm_num,
   by rw [hc]; norm_num,
   (update32_time_up_to_rounding specImpl id (1 / 10) 2151 (by norm_num) (by norm_num)).1
      50 lowWorld (le_refl _) zero_le_one (by rw [hc]; norm_num) (by rw [hc]; norm_num)⟩

/-- C9, as stated, fails: from clock 0 and an empty accumulator the call at 50
ms runs 2 steps where `⌊(a + d) / (1/60)⌋` is 3, for the float gap and for the
gap 1/20 alike; and the call at 600000000 ms never leaves its loop, whatever
the bound on its turns. -/
theorem step_count_not_floor_in_binary32 :
    (∃ r, update32 specImpl 2 50 lowWorld = some r ∧ stepCount r.2 = 2)
    ∧ ⌊(lowWorld.g_time_accumulator + (clock32 50 - lowWorld.g_previous_ticks))
        / FIXED_TIMESTEP⌋ = 3
    ∧ ⌊(lowWorld.g_time_accumulator + 1 / 20) / FIXED_TIMESTEP⌋ = 3
    ∧ ∀ fuel : Nat, update32 specImpl fuel 600000000 lowWorld = none := by
  obtain ⟨r, hr, hn, -, -⟩ := update32_at_50_count specImpl 0 lowWorld rfl rfl
  refine ⟨⟨r, hr, hn⟩, ?_, ?_, fun fuel => update32_at_600000000 specImpl fuel lowWorld rfl rfl⟩
  · rw [clock32_50]
    show ⌊((0 : ℚ) + (13421773 / 268435456 - 0)) / FIXED_TIMESTEP⌋ = 3
    rw [Int.floor_eq_iff]
    norm_num [FIXED_TIMESTEP]
  · show ⌊((0 : ℚ) + 1 / 20) / FIXED_TIMESTEP⌋ = 3
    rw [Int.floor_eq_iff]
    norm_num [FIXED_TIMESTEP]

/-- C9, amended, at 50 ms from clock 0 and an empty accumulator. -/
theorem update32_step_count_witness :
    0 ≤ lowWorld.g_time_accumulator
    ∧ 0 ≤ clock32 50 - lowWorld.g_previous_ticks
    ∧ pending32 50 lowWorld < 2 ^ (19 : ℕ)
    ∧ pending32 50 lowWorld * 1024 ≤ ((60 : ℕ) : ℚ)
    ∧ ∃ r, update32 specImpl 60 50 lowWorld = some r
        ∧ (∀ dt : ℚ, Ev.step dt ∈ r.2 → dt = FIXED_TIMESTEP32)
        ∧ 0 ≤ r.1.g_time_accumulator
        ∧ r.1.g_time_accumulator < FIXED_TIMESTEP32 :=
  have hc : 0 ≤ clock32 50 - lowWorld.g_previous_ticks := by
    rw [clock32_50]
    show (0 : ℚ) ≤ 13421773 / 268435456 - 0
    norm_num
  have hp : pending32 50 lowWorld = 13421773 / 268435456 := pending32_50 lowWorld rfl rfl
  have h19 : pending32 50 lowWorld < 2 ^ (19 : ℕ) := by
    rw [hp]
    norm_num
  have hf : pending32 50 lowWorld * 1024 ≤ ((60 : ℕ) : ℚ) := by
    rw [hp]
    norm_num
  ⟨le_refl _, hc, h19, hf,
   (update32_step_count specImpl 60 50 lowWorld (le_refl _) hc h19 hf).imp
      (fun _ h => ⟨h.1, h.2.1, h.2.2.1, h.2.2.2.1⟩)⟩

/-- Below `2^19` s of pending time a call of `update` returns. -/
theorem update32_returns (impl : EntityImpl) (fuel ms : Nat) (w : World)
    (hp : pending32 ms w < 2 ^ (19 : ℕ)) (hfuel : pending32 ms w * 1024 ≤ fuel) :
    ∃ r, update32 impl fuel ms w = some r := by
  by_cases h : pending32 ms w < FIXED_TIMESTEP32
  · exact ⟨_, update32_early impl fuel ms w h⟩
  · obtain ⟨lr, hl, -, -⟩ := stepLoop32_terminates impl fuel (pending32 ms w)
      w.g_game_state.player w.g_game_state.hook hp hfuel
    refine ⟨finish32 impl ms w lr, ?_⟩
    rw [update32_late impl fuel ms w (not_lt.mp h), hl]
    rfl

/-- The call at 50 ms on `lowWorld`: two steps, then the lose branch. -/
theorem low32_first :
    ∃ r, update32 specImpl 2 50 lowWorld = some r
      ∧ r.2 = [Ev.step FIXED_TIMESTEP32, Ev.step FIXED_TIMESTEP32, Ev.lose]
      ∧ r.1.game_end = true
      ∧ r.1.g_time_accumulator = 8947847 / 536870912
      ∧ r.1.g_previous_ticks = 13421773 / 268435456 := by
  refine ⟨_, update32_at_50 specImpl 0 lowWorld rfl rfl, ?_, ?_,
    (finish32_acc _ _ _ _).1, ?_⟩
  · simp [finish32, afterLoop32, applySteps32, loseCheck32, winCheck, specImpl,
      Entity.update_spec, Entity.check_collision_spec, lowWorld, worldWith, restingEntity,
      hookInit, Entity.get_position, LOSE_Y32_eq, FIXED_TIMESTEP32_eq, Vec3.zero,
      Entity.set_velocity]
    norm_num
  · simp [finish32, afterLoop32, applySteps32, loseCheck32, winCheck, specImpl,
      Entity.update_spec, Entity.check_collision_spec, lowWorld, worldWith, restingEntity,
      hookInit, Entity.get_position, LOSE_Y32_eq, FIXED_TIMESTEP32_eq, Vec3.zero,
      Entity.set_velocity]
    norm_num
  · rw [(finish32_acc _ _ _ _).2, clock32_50]

/-- The call at 50 ms on `risingWorld`: two steps, then the win branch alone,
the velocity left as the steps left it. -/
theorem rising32_first :
    ∃ r, update32 specImpl 2 50 risingWorld = some r
      ∧ r.2 = [Ev.step FIXED_TIMESTEP32, Ev.step FIXED_TIMESTEP32, Ev.win]
      ∧ r.1.game_end = true
      ∧ r.1.g_game_state.player.get_velocity = ⟨0, 1, 0⟩ := by
  refine ⟨_, update32_at_50 specImpl 0 risingWorld rfl rfl, ?_, ?_, ?_⟩
  · simp [finish32, afterLoop32, applySteps32, loseCheck32, winCheck, specImpl,
      Entity.update_spec, Entity.check_collision_spec, risingWorld, worldWith, restingEntity,
      hookInit, Entity.get_position, LOSE_Y32_eq, FIXED_TIMESTEP32_eq, Vec3.zero,
      Entity.set_velocity]
    norm_num
  · simp [finish32, afterLoop32, applySteps32, loseCheck32, winCheck, specImpl,
      Entity.update_spec, Entity.check_collision_spec, risingWorld, worldWith, restingEntity,
      hookInit, Entity.get_position, LOSE_Y32_eq, FIXED_TIMESTEP32_eq, Vec3.zero,
      Entity.set_velocity]
    norm_num
  · simp [finish32, afterLoop32, applySteps32, loseCheck32, winCheck, specImpl,
      Entity.update_spec, Entity.check_collision_spec, risingWorld, worldWith, restingEntity,
      hookInit, Entity.get_position, Entity.get_velocity, LOSE_Y32_eq, FIXED_TIMESTEP32_eq,
      Vec3.zero, Entity.set_velocity]
    norm_num

/-- After a call at 50 ms that stored `8947847 / 2^29`, the pending time at
100 ms is `1118481 / 2^24`, about 0.0667 s. -/
theorem pending32_100 (w : World) (h1 : w.g_previous_ticks = 13421773 / 268435456)
    (h2 : w.g_time_accumulator = 8947847 / 536870912) :
    pending32 100 w = 1118481 / 16777216 := by
  unfold pending32 F32.add F32.sub
  rw [h1, h2, clock32_100]
  rw [show (13421773 / 134217728 : ℚ) - 13421773 / 268435456 = 13421773 / 268435456 by
    norm_num]
  rw [F32.rnd_grid_0_05]
  rw [F32.rnd_eval _ (-4) (by norm_num) (by norm_num)]
  rw [F32.roundHalfEven_of_floor _ 8947848 (by rw [Int.floor_eq_iff]; norm_num)]
  norm_num

/-- C4, as stated, fails on both counts: from `risingWorld` the call at 50 ms
fires the win branch and returns with the player's velocity `(0, 1, 0)`, not
zero; and from `lowWorld` the call at 50 ms fires the lose branch, after which
the call of the next frame, at 100 ms with no input, runs at least one more
player step (`glm::normalize` is never called, see C6; the identity stands in
for it). -/
theorem end_condition_does_not_stop_player :
    (∃ r, update32 specImpl 2 50 risingWorld = some r
      ∧ Ev.win ∈ r.2 ∧ r.1.game_end = true
      ∧ r.1.g_game_state.player.get_velocity = ⟨0, 1, 0⟩
      ∧ r.1.g_game_state.player.get_velocity ≠ ⟨0, 0, 0⟩)
    ∧ (∃ r₁ r₂, update32 specImpl 2 50 lowWorld = some r₁
      ∧ Ev.lose ∈ r₁.2 ∧ r₁.1.game_end = true
      ∧ update32 specImpl 100 100
          (process_input id [] ⟨false, false, false, false⟩ r₁.1) = some r₂
      ∧ 1 ≤ stepCount r₂.2) := by
  constructor
  · obtain ⟨r, hr, hlog, hend, hv⟩ := rising32_first
    refine ⟨r, hr, ?_, hend, hv, ?_⟩
    · rw [hlog]
      simp
    · rw [hv]
      simp
  · obtain ⟨r₁, hr, hlog, hend, hacc, hprev⟩ := low32_first
    have hp : pending32 100 (process_input id [] ⟨false, false, false, false⟩ r₁.1)
        = 1118481 / 16777216 := by
      rw [pending32_process_input]
      exact pending32_100 r₁.1 hprev hacc
    obtain ⟨r₂, h₂⟩ := update32_returns specImpl 100 100
      (process_input id [] ⟨false, false, false, false⟩ r₁.1)
      (by rw [hp]; norm_num) (by rw [hp]; norm_num)
    refine ⟨r₁, r₂, hr, ?_, hend, h₂, ?_⟩
    · rw [hlog]
      simp
    · rw [update32_one_le_stepCount_iff specImpl 100 100 _ r₂ h₂, hp, FIXED_TIMESTEP32_eq]
      norm_num

/-- C4, amended, at `lowWorld`: the call at 50 ms executes the lose branch and
returns with the player's velocity zero and `game_end` set. -/
theorem update32_lose_zeroes_velocity_witness :
    ∃ r, update32 specImpl 2 50 lowWorld = some r
      ∧ Ev.lose ∈ r.2
      ∧ r.1.g_game_state.player.get_velocity = ⟨0, 0, 0⟩
      ∧ r.1.game_end = true := by
  obtain ⟨r, hr, hlog, -, -, -⟩ := low32_first
  have hl : Ev.lose ∈ r.2 := by
    rw [hlog]
    simp
  exact ⟨r, hr, hl,
    (update32_lose_zeroes_velocity specImpl id 2 50 lowWorld r hr hl).1,
    (update32_lose_zeroes_velocity specImpl id 2 50 lowWorld r hr hl).2.1⟩

end HW3
